import Mathlib

/-!
Verification development for the resume-tailoring application (src/app.py).

The file shallowly embeds the parts of the program the claims are about:

* the text-cleaning step (src/app.py lines 407-409) and the diff renderer
  `generate_diff_html` (lines 168-186), together with the parts of the
  CPython `difflib` standard library it calls
  (`SequenceMatcher.find_longest_match`, `get_matching_blocks`,
  `get_opcodes`, the three ratio functions, and `Differ.compare` with
  `_dump`, `_plain_replace`, `_fancy_replace`, `_fancy_helper`,
  `_qformat`), translated from CPython 3.11 difflib.py;
* the remote-call wrapper `call_gemini_api` (lines 27-98), keyword
  extraction (lines 101-116), the review scorer (lines 119-165), the
  submit-button handler (lines 311-396) and the results renderer
  (lines 399-452), as pure functions of an abstract per-call outcome.

Texts are modelled as `List Char` (Python strings are sequences of unicode
code points).  Python floats appearing in difflib's similarity ratios are
modelled as exact rationals; every comparison performed on the inputs of
the claims is far away from any float-rounding boundary.
-/

/-! ## Python string primitives -/

/-- Line-break characters recognised by Python `str.splitlines`. -/
def pyIsLineBreak (c : Char) : Bool :=
  c = '\n' || c = '\r' || c = '\x0b' || c = '\x0c' ||
  c = '\x1c' || c = '\x1d' || c = '\x1e' || c = '\x85' ||
  c = '\u2028' || c = '\u2029'

/-- Whitespace characters for Python `str.strip` / `str.isspace`
(ASCII whitespace plus the unicode space characters). -/
def pyIsSpaceCh (c : Char) : Bool :=
  c = ' ' || c = '\t' || c = '\n' || c = '\x0b' || c = '\x0c' || c = '\r' ||
  c = '\x1c' || c = '\x1d' || c = '\x1e' || c = '\x1f' || c = '\x85' ||
  c = '\xa0' || c = '\u1680' ||
  ('\u2000' ≤ c && c ≤ '\u200a') ||
  c = '\u2028' || c = '\u2029' || c = '\u202f' || c = '\u205f' || c = '\u3000'

/-- `str.splitlines(keepends)`: accumulator holds the current line reversed.
`\r\n` counts as a single break; a final line without terminator is kept. -/
def pySplitlinesAux (keepends : Bool) : List Char → List Char → List (List Char)
  | [], acc => if acc = [] then [] else [acc.reverse]
  | c :: rest, acc =>
    if c = '\r' then
      match rest with
      | c2 :: rest2 =>
        if c2 = '\n' then
          (acc.reverse ++ if keepends then ['\r', '\n'] else []) ::
            pySplitlinesAux keepends rest2 []
        else
          (acc.reverse ++ if keepends then [c] else []) ::
            pySplitlinesAux keepends (c2 :: rest2) []
      | [] => [acc.reverse ++ if keepends then [c] else []]
    else if pyIsLineBreak c then
      (acc.reverse ++ if keepends then [c] else []) ::
        pySplitlinesAux keepends rest []
    else
      pySplitlinesAux keepends rest (c :: acc)

/-- Python `str.splitlines(keepends=...)`. -/
def pySplitlines (keepends : Bool) (s : List Char) : List (List Char) :=
  pySplitlinesAux keepends s []

/-- Python `str.strip()` (strip whitespace from both ends). -/
def pyStrip (l : List Char) : List Char :=
  ((l.dropWhile pyIsSpaceCh).reverse.dropWhile pyIsSpaceCh).reverse

/-- Python `str.rstrip()` (strip trailing whitespace). -/
def pyRstrip (l : List Char) : List Char :=
  (l.reverse.dropWhile pyIsSpaceCh).reverse

/-- `"\n".join(xs)`. -/
def pyJoinNl (xs : List (List Char)) : List Char :=
  (List.intersperse ['\n'] xs).flatten

/-- The cleaning applied before diffing (src/app.py lines 408-409):
`"\n".join([line.strip() for line in s.splitlines() if line.strip()])`. -/
def cleanedText (s : List Char) : List Char :=
  pyJoinNl (((pySplitlines false s).map pyStrip).filter (fun l => l ≠ []))

/-- The non-blank trimmed lines of a text (the list joined by `cleanedText`). -/
def cleanedLines (s : List Char) : List (List Char) :=
  ((pySplitlines false s).map pyStrip).filter (fun l => l ≠ [])

/-! ## SequenceMatcher (CPython 3.11 difflib), generic over the element type

The app instantiates `difflib.Differ()` with `linejunk=None` and
`charjunk=None` (src/app.py line 173), so the `SequenceMatcher` junk set
`bjunk` is always empty; the `isbjunk` tests are kept as an explicit
`bjunk` parameter instantiated with the constantly-false function.
`autojunk` is left at its default `True`. -/

variable {α : Type} [DecidableEq α] [Inhabited α]

/-- Positions (ascending) at which `x` occurs in `b`: the `b2j` entry of `x`
before the popularity purge. -/
def elemPositions (x : α) : List α → Nat → List Nat
  | [], _ => []
  | y :: ys, i =>
      if y = x then i :: elemPositions x ys (i + 1) else elemPositions x ys (i + 1)

/-- `__chain_b` autojunk popularity: with `n = len(b) >= 200`, elements with
more than `n // 100 + 1` occurrences are purged from `b2j`. -/
def isPopular (b : List α) (x : α) : Bool :=
  decide (200 ≤ b.length) && decide (b.length / 100 + 1 < (elemPositions x b 0).length)

/-- The `b2j` mapping after the autojunk purge (`bjunk` is empty here since
no `isjunk` function is supplied). -/
def b2jOf (b : List α) (x : α) : List Nat :=
  if isPopular b x then [] else elemPositions x b 0

/-- State of the `find_longest_match` best triple `(besti, bestj, bestsize)`. -/
structure FlmBest where
  bi : Nat
  bj : Nat
  bs : Nat
deriving Repr, DecidableEq

/-- Inner step of the `find_longest_match` dynamic program, for one `j` in
`b2j[a[i]]`: `k = j2len.get(j-1, 0) + 1` (reading the previous row),
record it in the new row, and update the best triple when strictly longer. -/
def flmStep (j2lenOld : Nat → Nat) (i : Nat) :
    ((Nat → Nat) × FlmBest) → Nat → ((Nat → Nat) × FlmBest)
  | (row, best), j =>
    let k := (if j = 0 then 0 else j2lenOld (j - 1)) + 1
    let row' := fun j' => if j' = j then k else row j'
    let best' := if best.bs < k then ⟨i + 1 - k, j + 1 - k, k⟩ else best
    (row', best')

/-- One row (`for j in b2j.get(a[i], nothing)`) of the dynamic program;
`j < blo` entries are skipped and `j >= bhi` entries dropped (the positions
list is ascending, so `continue`/`break` amount to this filter). -/
def flmRow (a : List α) (b2jf : α → List Nat) (blo bhi : Nat)
    (st : (Nat → Nat) × FlmBest) (i : Nat) : (Nat → Nat) × FlmBest :=
  let js := (b2jf (a.getD i default)).filter (fun j => decide (blo ≤ j) && decide (j < bhi))
  js.foldl (flmStep st.1 i) (fun _ => 0, st.2)

/-- The full dynamic-programming loop of `find_longest_match`. -/
def flmLoop (a : List α) (b2jf : α → List Nat) (alo ahi blo bhi : Nat) : FlmBest :=
  ((List.range' alo (ahi - alo)).foldl (flmRow a b2jf blo bhi)
    (fun _ => 0, ⟨alo, blo, 0⟩)).2

/-- Backward extension loop: while `besti > alo and bestj > blo and
test(b[bestj-1]) and a[besti-1] == b[bestj-1]`, grow the block leftwards.
`fuel` bounds the iteration count (`best.bi` always suffices). -/
def extendBack (a b : List α) (test : α → Bool) (alo blo : Nat) :
    Nat → FlmBest → FlmBest
  | 0, best => best
  | fuel + 1, best =>
    if decide (alo < best.bi) && decide (blo < best.bj) &&
        test (b.getD (best.bj - 1) default) &&
        decide (a.getD (best.bi - 1) default = b.getD (best.bj - 1) default) then
      extendBack a b test alo blo fuel ⟨best.bi - 1, best.bj - 1, best.bs + 1⟩
    else best

/-- Forward extension loop: while `besti+bestsize < ahi and bestj+bestsize <
bhi and test(b[bestj+bestsize]) and a[besti+bestsize] == b[bestj+bestsize]`,
grow the block rightwards. -/
def extendFwd (a b : List α) (test : α → Bool) (ahi bhi : Nat) :
    Nat → FlmBest → FlmBest
  | 0, best => best
  | fuel + 1, best =>
    if decide (best.bi + best.bs < ahi) && decide (best.bj + best.bs < bhi) &&
        test (b.getD (best.bj + best.bs) default) &&
        decide (a.getD (best.bi + best.bs) default = b.getD (best.bj + best.bs) default) then
      extendFwd a b test ahi bhi fuel ⟨best.bi, best.bj, best.bs + 1⟩
    else ⟨best.bi, best.bj, best.bs⟩

/-- `SequenceMatcher.find_longest_match(alo, ahi, blo, bhi)`:
the dynamic program followed by the two non-junk extension loops
(`not isbjunk(...)`) and the two junk extension loops (`isbjunk(...)`). -/
def find_longest_match (bjunk : α → Bool) (a b : List α) (b2jf : α → List Nat)
    (alo ahi blo bhi : Nat) : FlmBest :=
  let best := flmLoop a b2jf alo ahi blo bhi
  let best := extendBack a b (fun x => !bjunk x) alo blo best.bi best
  let best := extendFwd a b (fun x => !bjunk x) ahi bhi ahi best
  let best := extendBack a b bjunk alo blo best.bi best
  let best := extendFwd a b bjunk ahi bhi ahi best
  best

/-- The recursive block collection of `get_matching_blocks`.  CPython uses an
explicit work queue and sorts the collected blocks at the end; in-order
recursion produces the same sorted list, because all blocks found in the
left sub-range precede the found block in both coordinates, and likewise on
the right.  `fuel` bounds the recursion depth
(`(ahi - alo) + (bhi - blo) + 1` always suffices). -/
def matchingBlocksRec (bjunk : α → Bool) (a b : List α) (b2jf : α → List Nat) :
    Nat → Nat → Nat → Nat → Nat → List (Nat × Nat × Nat)
  | 0, _, _, _, _ => []
  | fuel + 1, alo, ahi, blo, bhi =>
    let m := find_longest_match bjunk a b b2jf alo ahi blo bhi
    if m.bs = 0 then []
    else
      (if decide (alo < m.bi) && decide (blo < m.bj) then
        matchingBlocksRec bjunk a b b2jf fuel alo m.bi blo m.bj
      else []) ++
      (m.bi, m.bj, m.bs) ::
      (if decide (m.bi + m.bs < ahi) && decide (m.bj + m.bs < bhi) then
        matchingBlocksRec bjunk a b b2jf fuel (m.bi + m.bs) ahi (m.bj + m.bs) bhi
      else [])

/-- The adjacent-block collapsing pass of `get_matching_blocks`, starting
from `(i1, j1, k1) = (0, 0, 0)`, followed by the `(la, lb, 0)` sentinel. -/
def nonAdjacentBlocks (la lb : Nat) (blocks : List (Nat × Nat × Nat)) :
    List (Nat × Nat × Nat) :=
  let st := blocks.foldl
    (fun (st : List (Nat × Nat × Nat) × (Nat × Nat × Nat)) blk =>
      let (acc, cur) := st
      let (i1, j1, k1) := cur
      let (i2, j2, k2) := blk
      if i1 + k1 = i2 ∧ j1 + k1 = j2 then (acc, (i1, j1, k1 + k2))
      else (acc ++ if k1 ≠ 0 then [(i1, j1, k1)] else [], (i2, j2, k2)))
    ([], (0, 0, 0))
  (st.1 ++ if st.2.2.2 ≠ 0 then [st.2] else []) ++ [(la, lb, 0)]

/-- `SequenceMatcher(isjunk, a, b).get_matching_blocks()` (with `isjunk`
giving the junk predicate `bjunk`; the `b2j` table is built once from `b`). -/
def get_matching_blocks (bjunk : α → Bool) (a b : List α) : List (Nat × Nat × Nat) :=
  nonAdjacentBlocks a.length b.length
    (matchingBlocksRec bjunk a b (b2jOf b) (a.length + b.length + 1) 0 a.length 0 b.length)

/-- Opcode tags of `SequenceMatcher.get_opcodes`. -/
inductive DTag where
  | replace
  | delete
  | insert
  | equal
deriving Repr, DecidableEq

/-- `get_opcodes`: walk the matching blocks with cursors `i, j`, emitting a
gap opcode before each block and an `equal` opcode for each nonempty block. -/
def opcodesFromBlocks (blocks : List (Nat × Nat × Nat)) :
    List (DTag × Nat × Nat × Nat × Nat) :=
  (blocks.foldl
    (fun (st : Nat × Nat × List (DTag × Nat × Nat × Nat × Nat)) blk =>
      let (i, j, answer) := st
      let (ai, bj, size) := blk
      let answer :=
        if i < ai ∧ j < bj then answer ++ [(DTag.replace, i, ai, j, bj)]
        else if i < ai then answer ++ [(DTag.delete, i, ai, j, bj)]
        else if j < bj then answer ++ [(DTag.insert, i, ai, j, bj)]
        else answer
      let answer :=
        if size ≠ 0 then answer ++ [(DTag.equal, ai, ai + size, bj, bj + size)]
        else answer
      (ai + size, bj + size, answer))
    (0, 0, [])).2.2

/-- `SequenceMatcher(isjunk, a, b).get_opcodes()`. -/
def get_opcodes (bjunk : α → Bool) (a b : List α) : List (DTag × Nat × Nat × Nat × Nat) :=
  opcodesFromBlocks (get_matching_blocks bjunk a b)

/-! ### Similarity ratios.

`_calculate_ratio(matches, length)` is `2.0 * matches / length` (or `1.0`
for empty input).  Python's float values are modelled as exact rationals,
represented as numerator/denominator pairs of naturals (denominator always
positive) and compared by cross-multiplication; every comparison performed
on the inputs of the claims is far from any float-rounding boundary. -/

/-- An exact nonnegative rational `num / den` with `den` positive. -/
structure RatioV where
  num : Nat
  den : Nat
deriving Repr, DecidableEq

/-- Strict comparison `x < y` of two ratios by cross-multiplication. -/
def ratioLt (x y : RatioV) : Bool :=
  x.num * y.den < y.num * x.den

/-- `_calculate_ratio`. -/
def calcRatioV (m length : Nat) : RatioV :=
  if length ≠ 0 then ⟨2 * m, length⟩ else ⟨1, 1⟩

/-- `SequenceMatcher.ratio()`: twice the total size of the matching blocks
over the total length. -/
def smRatioV (bjunk : α → Bool) (a b : List α) : RatioV :=
  calcRatioV ((get_matching_blocks bjunk a b).foldl (fun s blk => s + blk.2.2) 0)
    (a.length + b.length)

/-- The match count of `SequenceMatcher.quick_ratio()`: multiset-intersection
counting via the `avail` bookkeeping dictionary. -/
def quickRatioMatches (a b : List α) : Nat :=
  (a.foldl
    (fun (st : (α → Option Int) × Nat) elt =>
      let numb : Int := match st.1 elt with
        | some v => v
        | none => (b.count elt : Int)
      (fun y => if y = elt then some (numb - 1) else st.1 y,
       if 0 < numb then st.2 + 1 else st.2))
    (fun _ => none, 0)).2

/-- `SequenceMatcher.quick_ratio()`. -/
def quickRatioV (a b : List α) : RatioV :=
  calcRatioV (quickRatioMatches a b) (a.length + b.length)

/-- `SequenceMatcher.real_quick_ratio()`. -/
def realQuickRatioV (a b : List α) : RatioV :=
  calcRatioV (min a.length b.length) (a.length + b.length)

/-! ## Differ (CPython 3.11 difflib), instantiated at lines of text -/

/-- A line of text (an element of the sequences `Differ.compare` receives). -/
abbrev DLine := List Char

/-- The constantly-false junk predicate: `Differ()` is constructed with
`linejunk=None` and `charjunk=None` in src/app.py, so both the line-level
and the char-level `SequenceMatcher` have an empty `bjunk`. -/
def noJunk {β : Type} : β → Bool := fun _ => false

/-- `Differ._dump(tag, x, lo, hi)`: yields `'%s %s' % (tag, x[i])`. -/
def differDump (tag : Char) (x : List DLine) (lo hi : Nat) : List DLine :=
  (List.range' lo (hi - lo)).map (fun i => tag :: ' ' :: x.getD i [])

/-- `Differ._plain_replace`: dump the shorter block first. -/
def plainReplace (a b : List DLine) (alo ahi blo bhi : Nat) : List DLine :=
  if bhi - blo < ahi - alo then
    differDump '+' b blo bhi ++ differDump '-' a alo ahi
  else
    differDump '-' a alo ahi ++ differDump '+' b blo bhi

/-- `_keep_original_ws(s, tag_s)`. -/
def keepOriginalWs (s tags : List Char) : List Char :=
  (s.zip tags).map (fun p => if p.2 = ' ' ∧ pyIsSpaceCh p.1 then p.1 else p.2)

/-- `Differ._qformat(aline, bline, atags, btags)`. -/
def qformat (aline bline atags btags : List Char) : List DLine :=
  let atags := pyRstrip (keepOriginalWs aline atags)
  let btags := pyRstrip (keepOriginalWs bline btags)
  [('-' :: ' ' :: aline)] ++
  (if atags ≠ [] then [('?' :: ' ' :: atags) ++ ['\n']] else []) ++
  [('+' :: ' ' :: bline)] ++
  (if btags ≠ [] then [('?' :: ' ' :: btags) ++ ['\n']] else [])

/-- The intraline `atags`/`btags` built in `_fancy_replace` from the
char-level opcodes of the synch pair. -/
def intralineTags (aelt belt : List Char) : List Char × List Char :=
  (get_opcodes noJunk aelt belt).foldl
    (fun (st : List Char × List Char) op =>
      let (tag, i1, i2, j1, j2) := op
      match tag with
      | DTag.replace =>
          (st.1 ++ List.replicate (i2 - i1) '^', st.2 ++ List.replicate (j2 - j1) '^')
      | DTag.delete => (st.1 ++ List.replicate (i2 - i1) '-', st.2)
      | DTag.insert => (st.1, st.2 ++ List.replicate (j2 - j1) '+')
      | DTag.equal =>
          (st.1 ++ List.replicate (i2 - i1) ' ', st.2 ++ List.replicate (j2 - j1) ' '))
    ([], [])

/-- State of the `_fancy_replace` search for the best non-identical pair:
the best ratio so far (initially `0.74`), the best pair if one was recorded,
and the first identical pair if one was seen. -/
structure FancyScan where
  bestRatio : RatioV
  best : Option (Nat × Nat)
  eqPair : Option (Nat × Nat)

/-- The `for j ... for i ...` search loop of `_fancy_replace`, with the
char-level `SequenceMatcher` ratios (charjunk is None). -/
def fancyScan (a b : List DLine) (alo ahi blo bhi : Nat) : FancyScan :=
  (List.range' blo (bhi - blo)).foldl
    (fun st j =>
      let bj := b.getD j []
      (List.range' alo (ahi - alo)).foldl
        (fun (st : FancyScan) i =>
          let ai := a.getD i []
          if ai = bj then
            match st.eqPair with
            | none => { st with eqPair := some (i, j) }
            | some _ => st
          else if ratioLt st.bestRatio (realQuickRatioV ai bj) &&
              ratioLt st.bestRatio (quickRatioV ai bj) &&
              ratioLt st.bestRatio (smRatioV noJunk ai bj) then
            { st with bestRatio := smRatioV noJunk ai bj, best := some (i, j) }
          else st)
        st)
    ⟨⟨74, 100⟩, none, none⟩

/-- The synch-pair output of `_fancy_replace`: the `'  '` line for an
identical pair, or the `'-' '?' '+' '?'` quad with intraline marking. -/
def fancySynchOut (a b : List DLine) (bi bj : Nat) (identical : Bool) : List DLine :=
  if identical then [(' ' :: ' ' :: a.getD bi [])]
  else
    let tags := intralineTags (a.getD bi []) (b.getD bj [])
    qformat (a.getD bi []) (b.getD bj []) tags.1 tags.2

/-- `Differ._fancy_replace` (flag `true`) and `Differ._fancy_helper` (flag
`false`), fused into one function so that the mutual recursion is structural
on an explicit fuel (each hop consumes one unit;
`(ahi - alo) + (bhi - blo) + 3` always suffices). -/
def fancyStep (a b : List DLine) : Nat → Bool → Nat → Nat → Nat → Nat → List DLine
  | 0, _, _, _, _, _ => []
  | fuel + 1, true, alo, ahi, blo, bhi =>
    -- _fancy_replace: search for the best non-identical pair, then synch
    let sc := fancyScan a b alo ahi blo bhi
    if ratioLt sc.bestRatio ⟨75, 100⟩ then
      match sc.eqPair with
      | none => plainReplace a b alo ahi blo bhi
      | some p =>
        fancyStep a b fuel false alo p.1 blo p.2 ++
        fancySynchOut a b p.1 p.2 true ++
        fancyStep a b fuel false (p.1 + 1) ahi (p.2 + 1) bhi
    else
      match sc.best with
      | none => []  -- unreachable: bestRatioQ > 0.74 forces a recorded pair
      | some p =>
        fancyStep a b fuel false alo p.1 blo p.2 ++
        fancySynchOut a b p.1 p.2 false ++
        fancyStep a b fuel false (p.1 + 1) ahi (p.2 + 1) bhi
  | fuel + 1, false, alo, ahi, blo, bhi =>
    -- _fancy_helper: dispatch on which sides are nonempty
    if alo < ahi then
      if blo < bhi then fancyStep a b fuel true alo ahi blo bhi
      else differDump '-' a alo ahi
    else if blo < bhi then differDump '+' b blo bhi
    else []

/-- `Differ._fancy_replace`. -/
def fancyReplace (a b : List DLine) (fuel alo ahi blo bhi : Nat) : List DLine :=
  fancyStep a b fuel true alo ahi blo bhi

/-- `Differ._fancy_helper`. -/
def fancyHelper (a b : List DLine) (fuel alo ahi blo bhi : Nat) : List DLine :=
  fancyStep a b fuel false alo ahi blo bhi

/-- The lines a single opcode contributes to `Differ.compare`. -/
def opEmit (a b : List DLine) (op : DTag × Nat × Nat × Nat × Nat) : List DLine :=
  let (tag, alo, ahi, blo, bhi) := op
  match tag with
  | DTag.replace => fancyReplace a b (2 * (a.length + b.length) + 2) alo ahi blo bhi
  | DTag.delete => differDump '-' a alo ahi
  | DTag.insert => differDump '+' b blo bhi
  | DTag.equal => differDump ' ' a alo ahi

/-- `Differ().compare(a, b)` (linejunk and charjunk both None). -/
def differCompare (a b : List DLine) : List DLine :=
  (get_opcodes noJunk a b).foldr (fun op acc => opEmit a b op ++ acc) []

/-! ## generate_diff_html and the diff pipeline (src/app.py 168-186, 407-410) -/

/-- The opening div of `generate_diff_html`. -/
def htmlDivOpen : List Char :=
  "<div style=\"font-family: monospace; white-space: pre-wrap; background-color: #2E3036; padding: 10px; border-radius: 8px; overflow-x: auto; border: 1px solid #555555;\">".data

/-- The span wrapper chosen per diff line by its two-character tag. -/
def spanWrap (line : DLine) : List Char :=
  if line.take 2 = ['+', ' '] then
    "<span style=\"background-color: #2F4F2F; color: #90EE90;\">".data ++ line ++ "</span>".data
  else if line.take 2 = ['-', ' '] then
    "<span style=\"background-color: #4F2F2F; color: #FFB6C1;\">".data ++ line ++ "</span>".data
  else
    "<span style=\"color: #E0E0E0;\">".data ++ line ++ "</span>".data

/-- `generate_diff_html(text1, text2)` (src/app.py lines 168-186): split both
texts with `splitlines(keepends=True)`, run `Differ.compare`, and wrap each
resulting line in a colored span, unescaped. -/
def generate_diff_html (text1 text2 : List Char) : List Char :=
  let diff := differCompare (pySplitlines true text1) (pySplitlines true text2)
  htmlDivOpen ++ (diff.map spanWrap).flatten ++ "</div>".data

/-- The diff the app computes for a submission: `Differ.compare` applied to
the cleaned original and cleaned tailored texts (src/app.py lines 407-410). -/
def appDiff (original tailored : List Char) : List DLine :=
  differCompare (pySplitlines true (cleanedText original))
    (pySplitlines true (cleanedText tailored))

/-! ## The remote-call layer (src/app.py lines 27-165)

`call_gemini_api` performs one HTTP POST and post-processes the outcome.
The transport is abstracted into `ApiOutcome`: which exception the
`requests` call raised, or the decoded JSON body on success.  The
post-processing (response-shape check, extraction of
`candidates[0].content.parts[0].text`, JSON parsing under a schema) is
translated from the source; the dynamic (duck-typed) Python operations are
modelled in `Except Unit`, whose `error` is the `except Exception` branch
of lines 96-98. -/

/-- JSON values (`json.loads` results).  Numbers are restricted to integers:
the only schema in the program requires an integer and a string. -/
inductive Json where
  | null
  | bool (b : Bool)
  | num (n : Int)
  | str (s : List Char)
  | arr (xs : List Json)
  | obj (fields : List (List Char × Json))

/-- Python truthiness of a JSON value. -/
def pyTruthy : Json → Bool
  | .null => false
  | .bool b => b
  | .num n => n ≠ 0
  | .str s => s ≠ []
  | .arr xs => !xs.isEmpty
  | .obj fs => !fs.isEmpty

/-- Truthiness of an optional value (Python `None` is falsy). -/
def pyTruthyOpt : Option Json → Bool
  | none => false
  | some j => pyTruthy j

/-- Dictionary lookup; on duplicate keys the last occurrence wins, as in a
dict built by `json.loads`. -/
def objGet (fs : List (List Char × Json)) (k : List Char) : Option Json :=
  fs.foldl (fun acc f => if f.1 = k then some f.2 else acc) none

/-- `j.get(k)`: `None` when the key is missing; raises on non-dicts. -/
def pyDictGet (j : Json) (k : List Char) : Except Unit Json :=
  match j with
  | .obj fs => .ok ((objGet fs k).getD .null)
  | _ => .error ()

/-- `len(j)`: defined for sized values, raises otherwise. -/
def pyLen (j : Json) : Except Unit Nat :=
  match j with
  | .arr xs => .ok xs.length
  | .str s => .ok s.length
  | .obj fs => .ok fs.length
  | _ => .error ()

/-- `j[i]` for an integer index. -/
def pyIndex (j : Json) (i : Nat) : Except Unit Json :=
  match j with
  | .arr xs => match xs.get? i with
    | some v => .ok v
    | none => .error ()
  | .str s => match s.get? i with
    | some c => .ok (.str [c])
    | none => .error ()
  | _ => .error ()

/-- `j[k]` for a string key (KeyError when missing). -/
def pySubscript (j : Json) (k : List Char) : Except Unit Json :=
  match j with
  | .obj fs => match objGet fs k with
    | some v => .ok v
    | none => .error ()
  | _ => .error ()

/-- Contiguous-substring test. -/
def listIsInfix (k s : List Char) : Bool :=
  (List.range (s.length + 1)).any (fun i => (s.drop i).take k.length = k)

/-- `k in j` (membership test; substring test on strings). -/
def pyContains (j : Json) (k : List Char) : Except Unit Bool :=
  match j with
  | .obj fs => .ok (fs.any (fun f => f.1 = k))
  | .arr xs => .ok (xs.any (fun x => match x with | .str s => s = k | _ => false))
  | .str s => .ok (listIsInfix k s)
  | _ => .error ()

/-! ### A model of `json.loads`

Recursive-descent parsing of the JSON fragment this program can produce:
objects, arrays, double-quoted strings with the simple escapes, integer
numbers, `true`/`false`/`null`.  (Python's parser additionally accepts
floats and `\uXXXX` escapes; nothing in the claims involves those.) -/

/-- JSON insignificant whitespace. -/
def jsonSkipWs (s : List Char) : List Char :=
  s.dropWhile (fun c => c = ' ' || c = '\t' || c = '\n' || c = '\r')

/-- Decimal digit test. -/
def isDigitCh (c : Char) : Bool := '0' ≤ c && c ≤ '9'

/-- Digits of a number literal to a natural number. -/
def digitsToNat (ds : List Char) : Nat :=
  ds.foldl (fun n c => 10 * n + (c.toNat - 48)) 0

/-- Parse the body of a string literal after the opening quote. -/
def parseStringBody : Nat → List Char → Option (List Char × List Char)
  | 0, _ => none
  | _, [] => none
  | fuel + 1, c :: rest =>
    if c = '"' then some ([], rest)
    else if c = '\\' then
      match rest with
      | [] => none
      | e :: rest' =>
        let esc : Option Char :=
          if e = '"' then some '"'
          else if e = '\\' then some '\\'
          else if e = '/' then some '/'
          else if e = 'n' then some '\n'
          else if e = 't' then some '\t'
          else if e = 'r' then some '\r'
          else none
        match esc with
        | none => none
        | some ec =>
          match parseStringBody fuel rest' with
          | some (s, r) => some (ec :: s, r)
          | none => none
    else
      match parseStringBody fuel rest with
      | some (s, r) => some (c :: s, r)
      | none => none

mutual

/-- Parse one JSON value (leading whitespace allowed). -/
def parseJsonVal : Nat → List Char → Option (Json × List Char)
  | 0, _ => none
  | fuel + 1, input =>
    match jsonSkipWs input with
    | [] => none
    | c :: rest =>
      if c = '"' then
        match parseStringBody (fuel + 1) rest with
        | some (s, r) => some (.str s, r)
        | none => none
      else if c = '\x7b' then
        match jsonSkipWs rest with
        | '\x7d' :: r => some (.obj [], r)
        | _ => parseJsonMembers fuel rest []
      else if c = '[' then
        match jsonSkipWs rest with
        | ']' :: r => some (.arr [], r)
        | _ => parseJsonItems fuel rest []
      else if c = '-' then
        let ds := (jsonSkipWs rest).takeWhile isDigitCh
        if ds = [] then none
        else some (.num (-(digitsToNat ds : Int)), (jsonSkipWs rest).dropWhile isDigitCh)
      else if isDigitCh c then
        let ds := (c :: rest).takeWhile isDigitCh
        some (.num (digitsToNat ds : Int), (c :: rest).dropWhile isDigitCh)
      else if (c :: rest).take 4 = ['t', 'r', 'u', 'e'] then
        some (.bool true, (c :: rest).drop 4)
      else if (c :: rest).take 5 = ['f', 'a', 'l', 's', 'e'] then
        some (.bool false, (c :: rest).drop 5)
      else if (c :: rest).take 4 = ['n', 'u', 'l', 'l'] then
        some (.null, (c :: rest).drop 4)
      else none

/-- Parse the members of an object after `\x7b`. -/
def parseJsonMembers : Nat → List Char → List (List Char × Json) →
    Option (Json × List Char)
  | 0, _, _ => none
  | fuel + 1, input, acc =>
    match jsonSkipWs input with
    | '"' :: rest =>
      match parseStringBody (fuel + 1) rest with
      | none => none
      | some (k, r) =>
        match jsonSkipWs r with
        | ':' :: r' =>
          match parseJsonVal fuel r' with
          | none => none
          | some (v, r'') =>
            match jsonSkipWs r'' with
            | ',' :: r3 => parseJsonMembers fuel r3 (acc ++ [(k, v)])
            | '\x7d' :: r3 => some (.obj (acc ++ [(k, v)]), r3)
            | _ => none
        | _ => none
    | _ => none

/-- Parse the items of an array after `[`. -/
def parseJsonItems : Nat → List Char → List Json → Option (Json × List Char)
  | 0, _, _ => none
  | fuel + 1, input, acc =>
    match parseJsonVal fuel input with
    | none => none
    | some (v, r) =>
      match jsonSkipWs r with
      | ',' :: r' => parseJsonItems fuel r' (acc ++ [v])
      | ']' :: r' => some (.arr (acc ++ [v]), r')
      | _ => none

end

/-- `json.loads`: one value, nothing but whitespace around it. -/
def jsonLoads (s : List Char) : Option Json :=
  match parseJsonVal (s.length + 1) s with
  | some (v, rest) => if jsonSkipWs rest = [] then some v else none
  | none => none

/-! ### call_gemini_api -/

/-- What one remote call does at the transport/decode level: which
`requests` exception it raised, or the decoded JSON body. -/
inductive ApiOutcome where
  | httpError (status : Nat) (text : List Char)
  | connectionError (msg : List Char)
  | timeoutError (msg : List Char)
  | requestError (msg : List Char)
  | unexpectedError (msg : List Char)
  | success (body : Json)

/-- Messages surfaced in the UI (`st.error` / `st.warning` / `st.info` /
`st.write`). -/
inductive Msg where
  | error (s : List Char)
  | warning (s : List Char)
  | info (s : List Char)
  | write (s : List Char)

/-- The response-shape check and content extraction of src/app.py lines
66-70: yields the `parts[0]["text"]` value when the wrapper shape is
complete, `none` when one of the truthiness/length tests fails (lines
80-83), and `error` when the duck-typed accesses raise. -/
def extractGenContent (result : Json) : Except Unit (Option Json) := do
  let cands ← pyDictGet result "candidates".data
  if pyTruthy cands then
    let n ← pyLen cands
    if 0 < n then
      let c0 ← pyIndex cands 0
      let content ← pyDictGet c0 "content".data
      if pyTruthy content then
        let parts ← pyDictGet content "parts".data
        if pyTruthy parts then
          let np ← pyLen parts
          if 0 < np then
            let p0 ← pyIndex parts 0
            let t ← pySubscript p0 "text".data
            return some t
          else return none
        else return none
      else return none
    else return none
  else return none

/-- `call_gemini_api(prompt, ..., response_schema)` (src/app.py lines
27-98), as a function of the call's transport outcome and of whether a
response schema was supplied.  Returns the result (`None` on every error
path) and the messages shown.  Repr payloads interpolated into two debug
messages are elided. -/
def call_gemini_api (outcome : ApiOutcome) (hasSchema : Bool) :
    Option Json × List Msg :=
  match outcome with
  | .success body =>
    match extractGenContent body with
    | .ok (some t) =>
      if hasSchema then
        match t with
        | .str s =>
          match jsonLoads s with
          | some j => (some j, [])
          | none =>
            (none,
             [.error "Failed to parse JSON response from Gemini API. Check API response format.".data,
              .write ("Raw non-JSON response received: ".data ++ s)])
        | _ =>
          -- json.loads on a non-string raises TypeError, caught at line 96
          (none, [.error "An unexpected error occurred during API call: ".data])
      else (some t, [])
    | .ok none =>
      (none,
       [.error "Gemini API response structure is unexpected or content is missing. This often indicates an API error or rate limit.".data,
        .write "Unexpected Gemini API response: ".data])
    | .error _ =>
      (none, [.error "An unexpected error occurred during API call: ".data])
  | .httpError status txt =>
    (none, [.error ("HTTP Error calling Gemini API: ".data ++ (toString status).data ++
      " - ".data ++ txt)])
  | .connectionError m =>
    (none, [.error ("Connection Error calling Gemini API. Check internet connection or API endpoint reachability: ".data ++ m)])
  | .timeoutError m =>
    (none, [.error ("Timeout Error calling Gemini API. The request took too long: ".data ++ m)])
  | .requestError m =>
    (none, [.error ("Generic Request Error calling Gemini API: ".data ++ m)])
  | .unexpectedError m =>
    (none, [.error ("An unexpected error occurred during API call: ".data ++ m)])

/-! ## Prompts and the submission pipeline (src/app.py lines 101-165, 284-396) -/

/-- The keyword-extraction prompt (lines 105-113). -/
def keywordPrompt (jd : List Char) : List Char :=
  "\n    Extract the most important 10-15 keywords, key skills, and essential requirements from the following job description.\n    List them as a comma-separated string. Do not include any other text or conversational phrases.\n\n    Job Description:\n    ".data ++
  jd ++ "\n\n    Keywords:\n    ".data

/-- `extract_keywords(job_description)` (lines 101-116): the call result if
truthy, else the empty string.  (The text path of `call_gemini_api` yields a
string; a non-string payload is modelled as the empty string.) -/
def extract_keywords (outcome : ApiOutcome) : List Char × List Msg :=
  let r := call_gemini_api outcome false
  ((match r.1 with
    | some (.str s) => s
    | _ => []), r.2)

/-- The required fields of the structured-output review schema
(lines 123-130). -/
def reviewSchemaRequired : List (List Char) :=
  ["ats_score".data, "review".data]

/-- The review prompt (lines 132-161). -/
def reviewPrompt (tailored jt jd : List Char) : List Char :=
  "\n    You are a sophisticated AI system designed to evaluate resumes based on ATS (Applicant Tracking System) scoring criteria. \n    Your task is to review the following TAILORED resume against the provided Job Title and Job Description.\n\n    Provide a comprehensive ATS compatibility score out of 100. A higher score means better keyword matching and formatting for ATS. \n    Then, provide a human interviewer's perspective on the resume against the job role and description, covering:\n        - Strengths and weaknesses of the candidate's application.\n        - Potential questions and concerns that may arise during an interview.\n        - Overall readability and clarity.\n        - How well it highlights relevant experience and skills for the specific job.\n        - Suggestions for further improvement from a human perspective. \n    Ensure your responses are formal, detailed, and tailored to advanced users seeking in-depth analysis. \n    Respond ONLY with a valid JSON object containing 'ats_score' (integer out of 100) and 'review' (string). \n    DO NOT include any other text or conversational phrases outside the JSON.\n\n    ---\n    **Tailored Resume:**\n    ".data ++
  tailored ++
  "\n\n    ---\n    **Job Title:**\n    ".data ++ jt ++
  "\n\n    ---\n    **Job Description:**\n    ".data ++ jd ++
  "\n\n    ---\n    JSON Output:\n    ".data

/-- `get_resume_review_and_score` (lines 119-165): one structured-output
call with the review schema. -/
def get_resume_review_and_score (outcome : ApiOutcome) : Option Json × List Msg :=
  call_gemini_api outcome true

/-- The three tailoring styles of the selectbox (lines 304-308). -/
inductive TailoringStyle where
  | standard
  | concise
  | detailed
deriving DecidableEq

/-- The per-style guidance sentence (lines 343-349). -/
def tailoringGuidance : TailoringStyle → List Char
  | .concise => "Make the tailored resume concise and to the point, focusing only on the most relevant information.".data
  | .detailed => "Provide a detailed and comprehensive tailored resume, elaborating on experiences where relevant.".data
  | .standard => "Provide a balanced and standard tailored resume.".data

/-- The keyword-highlighting instruction inserted into the tailoring prompt
when keywords were extracted (line 340). -/
def keywordsInstructionOf (kws : List Char) : List Char :=
  "Ensure the tailored resume highlights these specific keywords and phrases: ".data ++
  kws ++ ". ".data

/-- The tailoring prompt (lines 351-373), with the guidance and keyword
instruction slots explicit. -/
def tailorPrompt (guidance kwInstr resume jt jd : List Char) : List Char :=
  "\n            You are an expert resume writer and career coach. Your task is to tailor a given resume to a specific job description and job title.\n            ".data ++
  guidance ++
  "\n            Focus on highlighting relevant skills, experiences, and achievements that directly match the requirements and keywords in the job description.\n            ".data ++
  kwInstr ++
  "\n            Ensure the tone is professional and impactful.\n            The output should ONLY be the tailored resume text. Do NOT include any conversational text, introductions, or conclusions.\n\n            ---\n            **Original Resume:**\n            ".data ++
  resume ++
  "\n\n            ---\n            **Job Title:**\n            ".data ++ jt ++
  "\n\n            ---\n            **Job Description:**\n            ".data ++ jd ++
  "\n\n            ---\n            **Tailored Resume:**\n            ".data

/-- The four session-state slots (lines 284-292). -/
structure SessionState where
  tailored_resume : Option Json
  review_data : Option Json
  original_resume_content : Option (List Char)
  extracted_keywords_display : Option (List Char)

/-- The uploaded file, after the out-of-scope text extraction: `none` when
no file is selected, `error` when reading/extraction raises (caught at
line 388), `ok` with the extracted text otherwise. -/
structure Submission where
  uploadedFile : Option (Except Unit (List Char))
  jobTitle : List Char
  jobDescription : List Char
  style : TailoringStyle

/-- The transport outcomes of the (up to) three remote calls a submission
can make. -/
structure RemoteOutcomes where
  keywordCall : ApiOutcome
  tailorCall : ApiOutcome
  reviewCall : ApiOutcome

/-- Which remote call was issued. -/
inductive CallKind where
  | keywords
  | tailor
  | review
deriving DecidableEq

/-- Result of one press of the tailor button: the session state left
behind, the messages shown, and the remote calls issued (with their
prompts), in order. -/
structure SubmitResult where
  state : SessionState
  msgs : List Msg
  calls : List (CallKind × List Char)

/-- Messages of the handler. -/
def missingInputMsg : List Char :=
  "Please upload your resume, enter a job title, and paste the job description to proceed.".data

/-- Failure notice when tailoring produced nothing (line 384). -/
def tailorFailMsg : List Char :=
  "Failed to tailor resume. Please try again.".data

/-- Keyword-extraction failure notice (line 336). -/
def kwFailDisplay : List Char :=
  "Could not extract keywords. Proceeding with general tailoring.".data

/-- One press of the tailor button (src/app.py lines 311-396).  The prior
session state is passed in only to reflect that lines 313-316 overwrite all
four slots before anything else; it is otherwise unused. -/
def runSubmission (prior : SessionState) (sub : Submission) (oc : RemoteOutcomes) :
    SubmitResult :=
  -- lines 313-316: reset all four slots before validation
  let _ := prior
  let st0 : SessionState := ⟨none, none, none, none⟩
  -- line 318: `if uploaded_file is not None and job_title and job_description:`
  match sub.uploadedFile with
  | none => ⟨st0, [.warning missingInputMsg], []⟩
  | some file =>
    if sub.jobTitle = [] ∨ sub.jobDescription = [] then
      ⟨st0, [.warning missingInputMsg], []⟩
    else
      match file with
      | .error _ =>
        -- lines 388-394: the except branch resets all four slots
        ⟨⟨none, none, none, none⟩,
         [.error "An error occurred while processing the file: ".data,
          .info "Please ensure your PDF is not an image-only PDF and contains selectable text.".data],
         []⟩
      | .ok resume_content =>
        -- line 330
        let st1 := { st0 with original_resume_content := some resume_content }
        -- step 1 (lines 332-340)
        let kwRes := extract_keywords oc.keywordCall
        let kws := kwRes.1
        let kwDisplay := if kws = [] then kwFailDisplay
          else "Extracted Keywords: ".data ++ kws
        let kwInstr := if kws = [] then [] else keywordsInstructionOf kws
        -- step 2 (lines 342-376)
        let guidance := tailoringGuidance sub.style
        let prompt := tailorPrompt guidance kwInstr resume_content sub.jobTitle
          sub.jobDescription
        let tRes := call_gemini_api oc.tailorCall false
        let st2 := { st1 with
          tailored_resume := tRes.1,
          extracted_keywords_display := some kwDisplay }
        if pyTruthyOpt tRes.1 then
          -- step 3 (lines 378-382)
          let tailoredTxt := match tRes.1 with
            | some (.str s) => s
            | _ => []
          let rRes := get_resume_review_and_score oc.reviewCall
          ⟨{ st2 with review_data := rRes.1 },
           kwRes.2 ++ tRes.2 ++ rRes.2,
           [(.keywords, keywordPrompt sub.jobDescription), (.tailor, prompt),
            (.review, reviewPrompt tailoredTxt sub.jobTitle sub.jobDescription)]⟩
        else
          -- lines 383-386
          ⟨{ st2 with tailored_resume := none, review_data := none },
           kwRes.2 ++ tRes.2 ++ [.error tailorFailMsg],
           [(.keywords, keywordPrompt sub.jobDescription), (.tailor, prompt)]⟩

/-! ## The results renderer (src/app.py lines 399-452) -/

/-- What the results section displays. -/
structure RenderOut where
  keywordsInfo : Option (List Char)
  tailoredShown : Option Json
  diffHtml : Option (List Char)
  reviewShown : Option Json

/-- The review display gate (line 420):
`if review_data and 'ats_score' in review_data and 'review' in review_data`. -/
def reviewGate (rd : Option Json) : Except Unit Bool :=
  match rd with
  | none => .ok false
  | some j =>
    if pyTruthy j then do
      let h1 ← pyContains j "ats_score".data
      if h1 then pyContains j "review".data
      else return false
    else .ok false

/-- The results section: the tailored-resume block (keyword info, markdown,
diff, download) is rendered only when `tailored_resume` is truthy; the
review block only when `reviewGate` passes. -/
def renderResults (st : SessionState) : Except Unit RenderOut := do
  let mainSection ←
    if pyTruthyOpt st.tailored_resume then do
      let tailoredJ := st.tailored_resume.getD .null
      -- lines 400-401
      let kwInfo : Option (List Char) := match st.extracted_keywords_display with
        | some d => if d ≠ [] then some d else none
        | none => none
      -- lines 407-410: clean both texts and render the diff
      let origTxt ← match st.original_resume_content with
        | some o => Except.ok o
        | none => Except.error ()   -- None.splitlines() would raise
      let tailTxt ← match tailoredJ with
        | .str s => Except.ok s
        | _ => Except.error ()
      Except.ok (kwInfo, some tailoredJ,
        some (generate_diff_html (cleanedText origTxt) (cleanedText tailTxt)))
    else Except.ok (none, none, none)
  let gate ← reviewGate st.review_data
  return ⟨mainSection.1, mainSection.2.1, mainSection.2.2,
    if gate then st.review_data else none⟩

/-! ## Claim-formalization and proof-support definitions -/

/-- A slice `x[lo:hi]` of a list. -/
def sliceOf {β : Type} (x : List β) (lo hi : Nat) : List β :=
  (x.drop lo).take (hi - lo)

/-- Swap the `'+ '` and `'- '` tags of a delta line (the correspondence the
spec asserts between `diff(A,B)` and `diff(B,A)`). -/
def swapTags (l : DLine) : DLine :=
  if l.take 2 = ['+', ' '] then '-' :: ' ' :: l.drop 2
  else if l.take 2 = ['-', ' '] then '+' :: ' ' :: l.drop 2
  else l

/-- The lines tagged unchanged in a delta. -/
def unchangedOf (d : List DLine) : List DLine :=
  (d.filter (fun l => l.take 2 = [' ', ' '])).map (fun l => l.drop 2)

/-- Restore the first input from a delta (lines tagged `'- '` or `'  '`;
this is what `difflib.restore(delta, 1)` reads). -/
def restoreFirst (d : List DLine) : List DLine :=
  (d.filter (fun l => l.take 2 = ['-', ' '] ∨ l.take 2 = [' ', ' '])).map
    (fun l => l.drop 2)

/-- Restore the second input from a delta (lines tagged `'+ '` or `'  '`). -/
def restoreSecond (d : List DLine) : List DLine :=
  (d.filter (fun l => l.take 2 = ['+', ' '] ∨ l.take 2 = [' ', ' '])).map
    (fun l => l.drop 2)

/-- Recursive form of the `get_opcodes` cursor walk (the `foldl` in
`opcodesFromBlocks` accumulates exactly these opcodes). -/
def opsRec : Nat → Nat → List (Nat × Nat × Nat) → List (DTag × Nat × Nat × Nat × Nat)
  | _, _, [] => []
  | i, j, (ai, bj, size) :: rest =>
    (if i < ai ∧ j < bj then [(DTag.replace, i, ai, j, bj)]
     else if i < ai then [(DTag.delete, i, ai, j, bj)]
     else if j < bj then [(DTag.insert, i, ai, j, bj)]
     else []) ++
    (if size ≠ 0 then [(DTag.equal, ai, ai + size, bj, bj + size)] else []) ++
    opsRec (ai + size) (bj + size) rest

/-- Matching blocks listed in cursor order: each block starts at or after
the cursor, fits inside the bounds, is nonempty, and is a genuine match;
the cursor then advances past it. -/
def Chained (a b : List DLine) : Nat → Nat → List (Nat × Nat × Nat) → Nat → Nat → Prop
  | _, _, [], _, _ => True
  | ci, cj, (i, j, k) :: rest, ihi, jhi =>
    ci ≤ i ∧ cj ≤ j ∧ 1 ≤ k ∧ i + k ≤ ihi ∧ j + k ≤ jhi ∧
    (∀ t, t < k → a.getD (i + t) [] = b.getD (j + t) []) ∧
    Chained a b (i + k) (j + k) rest ihi jhi

/-- The length of the maximal run of non-popular positions ending at `t`
(0 when position `t` itself is popular).  Drives the `find_longest_match`
main-diagonal argument for identical sequences. -/
def nonpopRun (a : List DLine) : Nat → Nat
  | 0 => if isPopular a (a.getD 0 []) then 0 else 1
  | t + 1 => if isPopular a (a.getD (t + 1) []) then 0 else nonpopRun a t + 1

/-- Outer invariant of the self-comparison DP after `i` rows. -/
def FlmSelfInv (a : List DLine) (i : Nat) (st : (Nat → Nat) × FlmBest) : Prop :=
  (∀ j, st.1 j ≤ (if i = 0 then 0 else nonpopRun a (i - 1))) ∧
  (∀ j, 0 < st.1 j → st.1 j ≤ j + 1 ∧
    ∀ t, t ≤ j → j < t + st.1 j → isPopular a (a.getD t []) = false) ∧
  (i ≠ 0 → isPopular a (a.getD (i - 1) []) = false →
    st.1 (i - 1) = nonpopRun a (i - 1)) ∧
  st.2.bi = st.2.bj ∧
  st.2.bi + st.2.bs ≤ i ∧
  (∀ t, t < i → nonpopRun a t ≤ st.2.bs)


/-- Soundness property of a `find_longest_match` result triple: it lies
within the requested window and is a genuine pointwise match. -/
def FlmOk (alo ahi blo bhi : Nat) (a b : List DLine) (m : FlmBest) : Prop :=
  alo ≤ m.bi ∧ m.bi + m.bs ≤ ahi ∧ blo ≤ m.bj ∧ m.bj + m.bs ≤ bhi ∧
  ∀ t, t < m.bs → a.getD (m.bi + t) [] = b.getD (m.bj + t) []

/-- Invariant of one `j2len` row of the `find_longest_match` dynamic
program: a nonzero entry at `j` records a genuine match chain ending at the
row above the current one. -/
def RowOkG (a b : List DLine) (alo blo bhi i : Nat) (row : Nat → Nat) : Prop :=
  ∀ j, 0 < row j → 1 ≤ i ∧ alo + row j ≤ i ∧ blo + row j ≤ j + 1 ∧ j < bhi ∧
    ∀ t, t < row j → a.getD (i - 1 - t) [] = b.getD (j - t) []

/-- The fold step of the adjacent-block collapsing pass of
`get_matching_blocks` (named so its equations can be stated). -/
def mergeStep (st : List (Nat × Nat × Nat) × (Nat × Nat × Nat))
    (blk : Nat × Nat × Nat) : List (Nat × Nat × Nat) × (Nat × Nat × Nat) :=
  let (acc, cur) := st
  let (i1, j1, k1) := cur
  let (i2, j2, k2) := blk
  if i1 + k1 = i2 ∧ j1 + k1 = j2 then (acc, (i1, j1, k1 + k2))
  else (acc ++ if k1 ≠ 0 then [(i1, j1, k1)] else [], (i2, j2, k2))

/-- The fold step of the `get_opcodes` cursor walk (named so its
equations can be stated). -/
def opStep (st : Nat × Nat × List (DTag × Nat × Nat × Nat × Nat))
    (blk : Nat × Nat × Nat) : Nat × Nat × List (DTag × Nat × Nat × Nat × Nat) :=
  let (i, j, answer) := st
  let (ai, bj, size) := blk
  let answer :=
    if i < ai ∧ j < bj then answer ++ [(DTag.replace, i, ai, j, bj)]
    else if i < ai then answer ++ [(DTag.delete, i, ai, j, bj)]
    else if j < bj then answer ++ [(DTag.insert, i, ai, j, bj)]
    else answer
  let answer :=
    if size ≠ 0 then answer ++ [(DTag.equal, ai, ai + size, bj, bj + size)]
    else answer
  (ai + size, bj + size, answer)

/-- Invariant of the `_fancy_replace` search state: recorded pairs lie in
the scanned window, an identical pair really is equal, and the best ratio is
still the initial `0.74` while no best pair is recorded. -/
def ScanInv (a b : List DLine) (alo ahi blo bhi : Nat) (st : FancyScan) : Prop :=
  (∀ i j, st.eqPair = some (i, j) →
    alo ≤ i ∧ i < ahi ∧ blo ≤ j ∧ j < bhi ∧ a.getD i [] = b.getD j []) ∧
  (∀ i j, st.best = some (i, j) → alo ≤ i ∧ i < ahi ∧ blo ≤ j ∧ j < bhi) ∧
  (st.best = none → st.bestRatio = ⟨74, 100⟩)

/-- The lines `Differ.compare` emits for a list of opcodes. -/
def emitAll (a b : List DLine) (ops : List (DTag × Nat × Nat × Nat × Nat)) : List DLine :=
  ops.foldr (fun op acc => opEmit a b op ++ acc) []

/-- A delta line carries one of the four two-character difflib tags. -/
def TagOk (l : DLine) : Prop :=
  l.take 2 = ['+', ' '] ∨ l.take 2 = ['-', ' '] ∨
  l.take 2 = [' ', ' '] ∨ l.take 2 = ['?', ' ']


/-- The `candidates[0].content.parts[0].text` wrapper of a successful
generation response carrying payload text `s`. -/
def genWrap (s : List Char) : Json :=
  .obj [("candidates".data,
    .arr [.obj [("content".data,
      .obj [("parts".data,
        .arr [.obj [("text".data, .str s)]])])]])]

/-! ## Basic lemmas about the embedding -/

theorem range'_map_getD (x : List DLine) :
    ∀ (n lo : Nat), lo + n ≤ x.length →
      (List.range' lo n).map (fun i => x.getD i []) = (x.drop lo).take n := by
  intro n
  induction n with
  | zero => intro lo _; simp
  | succ n ih =>
    intro lo h
    have hlo : lo < x.length := by omega
    rw [List.range'_succ]
    simp only [List.map_cons]
    rw [ih (lo + 1) (by omega)]
    rw [List.getD_eq_getElem x [] hlo]
    rw [List.drop_eq_getElem_cons hlo]
    rfl

theorem differDump_slice (t : Char) (x : List DLine) (lo hi : Nat)
    (h1 : lo ≤ hi) (h2 : hi ≤ x.length) :
    differDump t x lo hi = (sliceOf x lo hi).map (fun l => t :: ' ' :: l) := by
  unfold differDump sliceOf
  have : (List.range' lo (hi - lo)).map (fun i => t :: ' ' :: x.getD i []) =
      ((List.range' lo (hi - lo)).map (fun i => x.getD i [])).map
        (fun l => t :: ' ' :: l) := by
    simp [List.map_map]
  rw [this, range'_map_getD x (hi - lo) lo (by omega)]

theorem differDump_full (t : Char) (x : List DLine) :
    differDump t x 0 x.length = x.map (fun l => t :: ' ' :: l) := by
  rw [differDump_slice t x 0 x.length (by omega) (by omega)]
  simp [sliceOf]

theorem pySplitlinesAux_flatten_aux :
    ∀ (n : Nat) (s acc : List Char), s.length ≤ n →
      (pySplitlinesAux true s acc).flatten = acc.reverse ++ s := by
  intro n
  induction n with
  | zero =>
    intro s acc h
    have hs : s = [] := by cases s with | nil => rfl | cons c r => simp at h
    subst hs
    rw [pySplitlinesAux.eq_def]
    by_cases h : acc = [] <;> simp [h]
  | succ n ih =>
    intro s acc hlen
    rw [pySplitlinesAux.eq_def]
    split
    · by_cases h : acc = [] <;> simp [h]
    · rename_i c rest
      split
      · rename_i hc
        subst hc
        split
        · split
          · rename_i hc2
            subst hc2
            simp only [List.flatten_cons]
            rw [ih _ [] (by simp at hlen; omega)]
            simp
          · simp only [List.flatten_cons]
            rw [ih _ [] (by simp at hlen ⊢; omega)]
            simp
        · simp
      · split
        · simp only [List.flatten_cons]
          rw [ih rest [] (by simp at hlen; omega)]
          simp
        · rw [ih rest (c :: acc) (by simp at hlen; omega)]
          simp

theorem flatten_pySplitlines (s : List Char) :
    (pySplitlines true s).flatten = s := by
  have := pySplitlinesAux_flatten_aux s.length s [] (Nat.le_refl _)
  simpa [pySplitlines] using this

theorem find_nil_left (b : List DLine) (bhi : Nat) :
    find_longest_match noJunk [] b (b2jOf b) 0 0 0 bhi = ⟨0, 0, 0⟩ := rfl

theorem blocks_nil_left (b : List DLine) :
    get_matching_blocks noJunk ([] : List DLine) b = [(0, b.length, 0)] := by
  unfold get_matching_blocks
  simp only [List.length_nil, Nat.zero_add]
  rw [matchingBlocksRec.eq_def]
  simp [find_nil_left, nonAdjacentBlocks]

theorem opcodes_nil_left (b : List DLine) :
    get_opcodes noJunk ([] : List DLine) b =
      if b.length = 0 then [] else [(DTag.insert, 0, 0, 0, b.length)] := by
  unfold get_opcodes
  rw [blocks_nil_left]
  unfold opcodesFromBlocks
  by_cases h : b.length = 0 <;> simp [h, List.foldl]

theorem differCompare_nil_left (b : List DLine) :
    differCompare [] b = b.map (fun l => '+' :: ' ' :: l) := by
  unfold differCompare
  rw [opcodes_nil_left]
  by_cases h : b.length = 0
  · have : b = [] := List.length_eq_zero.mp h
    subst this
    simp
  · simp only [h, if_neg, List.foldr]
    unfold opEmit
    simp [differDump_full]

theorem extendBack_noJunk (a b : List DLine) (alo blo : Nat) :
    ∀ (fuel : Nat) (best : FlmBest),
      extendBack a b noJunk alo blo fuel best = best := by
  intro fuel best
  cases fuel with
  | zero => rfl
  | succ n => simp [extendBack, noJunk]

theorem extendFwd_noJunk (a b : List DLine) (ahi bhi : Nat) :
    ∀ (fuel : Nat) (best : FlmBest),
      extendFwd a b noJunk ahi bhi fuel best = best := by
  intro fuel best
  cases fuel with
  | zero => rfl
  | succ n => simp [extendFwd, noJunk]

theorem extendBack_self (a : List DLine) :
    ∀ (fuel : Nat) (best : FlmBest), best.bi = best.bj → best.bi ≤ fuel →
      extendBack a a (fun x => !noJunk x) 0 0 fuel best =
        ⟨0, 0, best.bs + best.bi⟩ := by
  intro fuel
  induction fuel with
  | zero =>
    intro best h1 h2
    obtain ⟨bi, bj, bs⟩ := best
    simp only at h1 h2
    subst h1
    have : bi = 0 := by omega
    subst this
    rfl
  | succ n ih =>
    intro best h1 h2
    obtain ⟨bi, bj, bs⟩ := best
    simp only at h1 h2
    subst h1
    rw [extendBack]
    split
    · rename_i hcond
      simp only [noJunk, Bool.not_false, Bool.and_true, Bool.and_eq_true,
        decide_eq_true_eq, and_true, true_and] at hcond
      dsimp only
      rw [ih ⟨bi - 1, bi - 1, bs + 1⟩ rfl (show bi - 1 ≤ n by omega)]
      dsimp only
      simp only [FlmBest.mk.injEq, true_and, and_true]
      omega
    · rename_i hcond
      simp only [noJunk, Bool.not_false, Bool.and_true, Bool.and_eq_true,
        decide_eq_true_eq, and_true, true_and] at hcond
      dsimp only
      have hbi : bi = 0 := by omega
      subst hbi
      simp only [FlmBest.mk.injEq, true_and, and_true]
      omega

theorem extendFwd_self (a : List DLine) (h : Nat) :
    ∀ (fuel : Nat) (best : FlmBest), best.bi = best.bj →
      best.bi + best.bs ≤ h → h - (best.bi + best.bs) ≤ fuel →
      extendFwd a a (fun x => !noJunk x) h h fuel best =
        ⟨best.bi, best.bj, h - best.bi⟩ := by
  intro fuel
  induction fuel with
  | zero =>
    intro best h1 h2 h3
    obtain ⟨bi, bj, bs⟩ := best
    simp only at h1 h2 h3 ⊢
    subst h1
    rw [extendFwd]
    simp only [FlmBest.mk.injEq, true_and, and_true]
    omega
  | succ n ih =>
    intro best h1 h2 h3
    obtain ⟨bi, bj, bs⟩ := best
    simp only at h1 h2 h3 ⊢
    subst h1
    rw [extendFwd]
    split
    · rename_i hcond
      simp only [noJunk, Bool.not_false, Bool.and_true, Bool.and_eq_true,
        decide_eq_true_eq, and_true, true_and] at hcond
      dsimp only
      rw [ih ⟨bi, bi, bs + 1⟩ rfl (show bi + (bs + 1) ≤ h by omega)
        (show h - (bi + (bs + 1)) ≤ n by omega)]
    · rename_i hcond
      simp only [noJunk, Bool.not_false, Bool.and_true, Bool.and_eq_true,
        decide_eq_true_eq, and_true, true_and] at hcond
      dsimp only
      have hbs : bi + bs = h := by omega
      simp only [FlmBest.mk.injEq, true_and, and_true]
      omega

theorem elemPositions_mem (x : DLine) :
    ∀ (b : List DLine) (i j : Nat), j ∈ elemPositions x b i →
      i ≤ j ∧ j - i < b.length ∧ b.getD (j - i) [] = x := by
  intro b
  induction b with
  | nil => intro i j h; simp [elemPositions] at h
  | cons y ys ih =>
    intro i j h
    rw [elemPositions] at h
    by_cases hy : y = x
    · rw [if_pos hy] at h
      rcases List.mem_cons.mp h with h1 | h2
      · subst h1
        simp [hy]
      · obtain ⟨ha, hb, hc⟩ := ih (i + 1) j h2
        refine ⟨by omega, by simp; omega, ?_⟩
        have : j - i = (j - (i + 1)) + 1 := by omega
        rw [this]
        simpa using hc
    · rw [if_neg hy] at h
      obtain ⟨ha, hb, hc⟩ := ih (i + 1) j h
      refine ⟨by omega, by simp; omega, ?_⟩
      have : j - i = (j - (i + 1)) + 1 := by omega
      rw [this]
      simpa using hc

theorem elemPositions_mem_of (x : DLine) :
    ∀ (b : List DLine) (i t : Nat), t < b.length → b.getD t [] = x →
      (i + t) ∈ elemPositions x b i := by
  intro b
  induction b with
  | nil => intro i t h; simp at h
  | cons y ys ih =>
    intro i t ht hx
    rw [elemPositions]
    cases t with
    | zero =>
      simp at hx
      rw [if_pos hx]
      simp
    | succ t' =>
      have hmem := ih (i + 1) t' (by simp at ht; omega) (by simpa using hx)
      have : i + (t' + 1) = (i + 1) + t' := by omega
      rw [this]
      by_cases hy : y = x
      · rw [if_pos hy]; exact List.mem_cons_of_mem _ hmem
      · rw [if_neg hy]; exact hmem

theorem elemPositions_sorted (x : DLine) :
    ∀ (b : List DLine) (i : Nat), (elemPositions x b i).Pairwise (· < ·) := by
  intro b
  induction b with
  | nil => intro i; simp [elemPositions]
  | cons y ys ih =>
    intro i
    rw [elemPositions]
    by_cases hy : y = x
    · rw [if_pos hy]
      refine List.pairwise_cons.mpr ⟨?_, ih (i + 1)⟩
      intro j hj
      have := (elemPositions_mem x ys (i + 1) j hj).1
      omega
    · rw [if_neg hy]; exact ih (i + 1)

theorem nonpopRun_le (a : List DLine) : ∀ t, nonpopRun a t ≤ t + 1 := by
  intro t
  induction t with
  | zero => rw [nonpopRun]; split <;> omega
  | succ t ih => rw [nonpopRun]; split <;> omega

theorem nonpopRun_of_window (a : List DLine) :
    ∀ (j k : Nat), k ≤ j + 1 →
      (∀ t, t ≤ j → j < t + k → isPopular a (a.getD t []) = false) →
      k ≤ nonpopRun a j := by
  intro j
  induction j with
  | zero =>
    intro k hk hw
    match k, hk with
    | 0, _ => omega
    | 1, _ =>
      rw [nonpopRun, hw 0 (by omega) (by omega)]
      simp
  | succ j' ih =>
    intro k hk hw
    cases k with
    | zero => omega
    | succ k' =>
      have hnp : isPopular a (a.getD (j' + 1) []) = false :=
        hw (j' + 1) (by omega) (by omega)
      rw [nonpopRun, hnp]
      simp only [Bool.false_eq_true, if_false]
      have : k' ≤ nonpopRun a j' := by
        apply ih k' (by omega)
        intro t ht1 ht2
        exact hw t (by omega) (by omega)
      omega

/-- Unfolding of `nonpopRun` at a non-popular position. -/
theorem nonpopRun_succ_form (a : List DLine) (i : Nat)
    (hnpi : isPopular a (a.getD i []) = false) :
    nonpopRun a i = (if i = 0 then 0 else nonpopRun a (i - 1)) + 1 := by
  cases i with
  | zero => rw [if_pos rfl, nonpopRun, if_neg (by rw [hnpi]; simp)]
  | succ m =>
    rw [if_neg (Nat.succ_ne_zero m), nonpopRun, if_neg (by rw [hnpi]; simp)]
    simp only [Nat.add_sub_cancel]

/-- On the self-comparison main diagonal the DP chain value is exactly the
non-popular run length. -/
theorem k_main_diag (a : List DLine) (i : Nat) (r : Nat → Nat)
    (OH1 : ∀ j, r j ≤ (if i = 0 then 0 else nonpopRun a (i - 1)))
    (OH6 : i ≠ 0 → isPopular a (a.getD (i - 1) []) = false →
      r (i - 1) = nonpopRun a (i - 1))
    (hnpi : isPopular a (a.getD i []) = false) :
    (if i = 0 then 0 else r (i - 1)) + 1 = nonpopRun a i := by
  cases i with
  | zero =>
    rw [if_pos rfl, nonpopRun, if_neg (by rw [hnpi]; simp)]
  | succ m =>
    rw [if_neg (Nat.succ_ne_zero m), nonpopRun, if_neg (by rw [hnpi]; simp)]
    simp only [Nat.add_sub_cancel]
    by_cases hnp1 : isPopular a (a.getD m []) = false
    · have h6 := OH6 (Nat.succ_ne_zero m)
        (by simp only [Nat.add_sub_cancel]; exact hnp1)
      simp only [Nat.add_sub_cancel] at h6
      omega
    · have hpop : isPopular a (a.getD m []) = true := by
        cases h : isPopular a (a.getD m [])
        · exact absurd h hnp1
        · rfl
      have hz : nonpopRun a m = 0 := by
        cases m with
        | zero => rw [nonpopRun, if_pos hpop]
        | succ m2 => rw [nonpopRun, if_pos hpop]
      have h := OH1 m
      rw [if_neg (Nat.succ_ne_zero m)] at h
      simp only [Nat.add_sub_cancel] at h
      omega

/-- Invariant bundle carried through one row of the self-comparison DP. -/
theorem flmInner_self (a : List DLine) (i : Nat) (r : Nat → Nat)
    (OH1 : ∀ j, r j ≤ (if i = 0 then 0 else nonpopRun a (i - 1)))
    (OH2 : ∀ j, 0 < r j → r j ≤ j + 1 ∧
      ∀ t, t ≤ j → j < t + r j → isPopular a (a.getD t []) = false)
    (OH6 : i ≠ 0 → isPopular a (a.getD (i - 1) []) = false →
      r (i - 1) = nonpopRun a (i - 1)) :
    ∀ (js : List Nat) (row' : Nat → Nat) (B' : FlmBest),
      (∀ j ∈ js, j < a.length ∧ a.getD j [] = a.getD i [] ∧
        isPopular a (a.getD i []) = false) →
      js.Pairwise (· < ·) →
      (∀ j, row' j ≤ nonpopRun a i) →
      (∀ j, 0 < row' j → row' j ≤ j + 1 ∧
        ∀ t, t ≤ j → j < t + row' j → isPopular a (a.getD t []) = false) →
      (i ∈ js ∨ row' i = nonpopRun a i) →
      (i ∈ js ∨ nonpopRun a i ≤ B'.bs) →
      B'.bi = B'.bj →
      B'.bi + B'.bs ≤ i + 1 →
      (∀ t, t < i → nonpopRun a t ≤ B'.bs) →
      (let res := js.foldl (flmStep r i) (row', B')
       (∀ j, res.1 j ≤ nonpopRun a i) ∧
       (∀ j, 0 < res.1 j → res.1 j ≤ j + 1 ∧
         ∀ t, t ≤ j → j < t + res.1 j → isPopular a (a.getD t []) = false) ∧
       res.1 i = nonpopRun a i ∧
       nonpopRun a i ≤ res.2.bs ∧
       res.2.bi = res.2.bj ∧
       res.2.bi + res.2.bs ≤ i + 1 ∧
       (∀ t, t < i → nonpopRun a t ≤ res.2.bs)) := by
  intro js
  induction js with
  | nil =>
    intro row' B' _ _ h1 h2 h3 h4 h5 h6 h7
    simp only [List.not_mem_nil, false_or] at h3 h4
    exact ⟨h1, h2, h3, h4, h5, h6, h7⟩
  | cons j js ih =>
    intro row' B' hmem hsort h1 h2 h3 h4 h5 h6 h7
    obtain ⟨hjlen, hjval, hnpi⟩ := hmem j (List.mem_cons_self j js)
    have hnpj : isPopular a (a.getD j []) = false := by rw [hjval]; exact hnpi
    have hfirun := nonpopRun_le a i
    set k := (if j = 0 then 0 else r (j - 1)) + 1 with hk
    have hkfi : k ≤ nonpopRun a i := by
      rw [hk, nonpopRun_succ_form a i hnpi]
      by_cases hj0 : j = 0
      · simp [hj0]
      · rw [if_neg hj0]
        have h := OH1 (j - 1)
        omega
    have hkj1 : k ≤ j + 1 := by
      rw [hk]
      by_cases hj0 : j = 0
      · simp [hj0]
      · rw [if_neg hj0]
        by_cases hrpos : 0 < r (j - 1)
        · have := (OH2 (j - 1) hrpos).1
          omega
        · omega
    have hwin : ∀ t, t ≤ j → j < t + k → isPopular a (a.getD t []) = false := by
      intro t ht1 ht2
      by_cases htj : t = j
      · subst htj; exact hnpj
      · rw [hk] at ht2
        by_cases hj0 : j = 0
        · omega
        · rw [if_neg hj0] at ht2
          have hrpos : 0 < r (j - 1) := by omega
          exact (OH2 (j - 1) hrpos).2 t (by omega) (by omega)
    have hkfj : k ≤ nonpopRun a j := nonpopRun_of_window a j k hkj1 hwin
    rw [List.foldl_cons]
    rw [show flmStep r i (row', B') j =
      (fun j' => if j' = j then k else row' j',
       if B'.bs < k then ⟨i + 1 - k, j + 1 - k, k⟩ else B') from rfl]
    have hmem' : ∀ j' ∈ js, j' < a.length ∧ a.getD j' [] = a.getD i [] ∧
        isPopular a (a.getD i []) = false :=
      fun j' hj' => hmem j' (List.mem_cons_of_mem _ hj')
    have hsort' := (List.pairwise_cons.mp hsort).2
    have hrow1 : ∀ j', (fun j' => if j' = j then k else row' j') j' ≤ nonpopRun a i := by
      intro j'
      by_cases h : j' = j
      · simpa [h] using hkfi
      · simpa [h] using h1 j'
    have hrow2 : ∀ j', 0 < (fun j' => if j' = j then k else row' j') j' →
        (fun j' => if j' = j then k else row' j') j' ≤ j' + 1 ∧
        ∀ t, t ≤ j' → j' < t + (fun j' => if j' = j then k else row' j') j' →
          isPopular a (a.getD t []) = false := by
      intro j' hpos
      by_cases h : j' = j
      · subst h
        simp only [if_pos rfl] at hpos ⊢
        exact ⟨hkj1, hwin⟩
      · simp only [if_neg h] at hpos ⊢
        exact h2 j' hpos
    by_cases hfire : B'.bs < k
    · have hji : j = i := by
        rcases Nat.lt_trichotomy j i with hlt | heq | hgt
        · exfalso
          have := h7 j hlt
          omega
        · exact heq
        · exfalso
          have hnotin : i ∉ j :: js := by
            intro hin
            rcases List.mem_cons.mp hin with h | h
            · omega
            · have hlt2 := (List.pairwise_cons.mp hsort).1 i h
              omega
          rcases h4 with h4 | h4
          · exact hnotin h4
          · omega
      have hkeq : k = nonpopRun a i := by
        rw [hk, hji]
        exact k_main_diag a i r OH1 OH6 hnpi
      rw [if_pos hfire]
      apply ih _ _ hmem' hsort' hrow1 hrow2
      · right
        simp only [hji, if_pos rfl]
        exact hkeq
      · right
        dsimp only
        omega
      · dsimp only
        omega
      · dsimp only
        omega
      · intro t ht
        dsimp only
        have h7t := h7 t ht
        omega
    · rw [if_neg hfire]
      apply ih _ _ hmem' hsort' hrow1 hrow2
      · by_cases hij : i = j
        · right
          simp only [← hij, if_pos rfl]
          rw [hk, ← hij]
          exact k_main_diag a i r OH1 OH6 hnpi
        · rcases h3 with h3 | h3
          · rcases List.mem_cons.mp h3 with h | h
            · exact absurd h hij
            · left; exact h
          · right
            simp only [if_neg hij]
            exact h3
      · by_cases hij : i = j
        · right
          have hkeq : k = nonpopRun a i := by
            rw [hk, ← hij]
            exact k_main_diag a i r OH1 OH6 hnpi
          omega
        · rcases h4 with h4 | h4
          · rcases List.mem_cons.mp h4 with h | h
            · exact absurd h hij
            · left; exact h
          · right; exact h4
      · exact h5
      · exact h6
      · exact h7

theorem flmRow_self (a : List DLine) (i : Nat) (hi : i < a.length)
    (st : (Nat → Nat) × FlmBest) (hinv : FlmSelfInv a i st) :
    FlmSelfInv a (i + 1) (flmRow a (b2jOf a) 0 a.length st i) := by
  obtain ⟨OH1, OH2, OH6, OH3, OH4, OH5⟩ := hinv
  unfold flmRow
  have hdef : (default : DLine) = [] := rfl
  set js := ((b2jOf a (a.getD i default)).filter
    (fun j => decide (0 ≤ j) && decide (j < a.length))) with hjs
  have hmem : ∀ j ∈ js, j < a.length ∧ a.getD j [] = a.getD i [] ∧
      isPopular a (a.getD i []) = false := by
    intro j hj
    rw [hjs, List.mem_filter] at hj
    obtain ⟨hj1, _⟩ := hj
    rw [b2jOf] at hj1
    split at hj1
    · simp at hj1
    · rename_i hpop
      have h := elemPositions_mem (a.getD i default) a 0 j hj1
      simp only [Nat.sub_zero] at h
      rw [hdef] at h hpop
      refine ⟨h.2.1, h.2.2, ?_⟩
      cases hb : isPopular a (a.getD i [])
      · rfl
      · exact absurd hb hpop
  have hsort : js.Pairwise (· < ·) := by
    rw [hjs]
    apply List.Pairwise.sublist (List.filter_sublist _)
    rw [b2jOf]
    split
    · simp
    · exact elemPositions_sorted _ a 0
  have hin : isPopular a (a.getD i []) = false → i ∈ js := by
    intro hnp
    rw [hjs, List.mem_filter]
    constructor
    · rw [b2jOf, hdef, if_neg (by rw [hnp]; simp)]
      have := elemPositions_mem_of (a.getD i []) a 0 i hi rfl
      simpa using this
    · simp [hi]
  have hfi0 : isPopular a (a.getD i []) = true → nonpopRun a i = 0 := by
    intro hpop
    cases i with
    | zero => rw [nonpopRun, if_pos hpop]
    | succ m => rw [nonpopRun, if_pos hpop]
  have hres := flmInner_self a i st.1 OH1 OH2 OH6 js (fun _ => 0) st.2 hmem hsort
    (by intro j; exact Nat.zero_le _)
    (by intro j hpos; simp at hpos)
    (by
      cases hb : isPopular a (a.getD i [])
      · exact Or.inl (hin hb)
      · exact Or.inr (by rw [hfi0 hb]))
    (by
      cases hb : isPopular a (a.getD i [])
      · exact Or.inl (hin hb)
      · exact Or.inr (by rw [hfi0 hb]; omega))
    OH3 (by omega) OH5
  obtain ⟨c1, c2, c3, c4, c5, c6, c7⟩ := hres
  refine ⟨?_, c2, ?_, c5, c6, ?_⟩
  · intro j
    rw [if_neg (Nat.succ_ne_zero i)]
    simpa using c1 j
  · intro _ hnp
    simp only [Nat.add_sub_cancel] at hnp ⊢
    rw [c3]
  · intro t ht
    rcases Nat.lt_succ_iff_lt_or_eq.mp ht with h | h
    · exact c7 t h
    · subst h
      exact c4

theorem flmLoop_self (a : List DLine) :
    FlmSelfInv a a.length
      ((List.range' 0 a.length).foldl (flmRow a (b2jOf a) 0 a.length)
        (fun _ => 0, ⟨0, 0, 0⟩)) := by
  have main : ∀ (m i : Nat) (st : (Nat → Nat) × FlmBest), i + m ≤ a.length →
      FlmSelfInv a i st →
      FlmSelfInv a (i + m) ((List.range' i m).foldl (flmRow a (b2jOf a) 0 a.length) st) := by
    intro m
    induction m with
    | zero => intro i st _ h; simpa using h
    | succ m ih =>
      intro i st hle h
      rw [List.range'_succ, List.foldl_cons]
      have h1 := flmRow_self a i (by omega) st h
      have h2 := ih (i + 1) _ (by omega) h1
      rw [show i + (m + 1) = (i + 1) + m by omega]
      exact h2
  have h0 : FlmSelfInv a 0 ((fun _ => 0, ⟨0, 0, 0⟩) : (Nat → Nat) × FlmBest) := by
    refine ⟨by intro j; simp, ?_, by intro h; omega, rfl, by simp, by omega⟩
    intro j h
    simp at h
  simpa using main a.length 0 _ (by omega) h0

theorem find_longest_match_self (a : List DLine) :
    find_longest_match noJunk a a (b2jOf a) 0 a.length 0 a.length =
      ⟨0, 0, a.length⟩ := by
  have hinv := flmLoop_self a
  obtain ⟨_, _, _, h3, h4, _⟩ := hinv
  simp only [find_longest_match]
  have hloop : flmLoop a (b2jOf a) 0 a.length 0 a.length =
      ((List.range' 0 a.length).foldl (flmRow a (b2jOf a) 0 a.length)
        (fun _ => 0, ⟨0, 0, 0⟩)).2 := by
    unfold flmLoop
    simp
  rw [hloop]
  set B := ((List.range' 0 a.length).foldl (flmRow a (b2jOf a) 0 a.length)
    (fun _ => 0, ⟨0, 0, 0⟩)).2 with hB
  rw [extendBack_self a B.bi B h3 (Nat.le_refl _)]
  rw [extendFwd_self a a.length a.length ⟨0, 0, B.bs + B.bi⟩ rfl
    (by dsimp only; omega) (by dsimp only; omega)]
  dsimp only
  rw [extendBack_noJunk, extendFwd_noJunk]
  simp

theorem get_matching_blocks_self (a : List DLine) :
    get_matching_blocks noJunk a a =
      if a.length = 0 then [(0, 0, 0)]
      else [(0, 0, a.length), (a.length, a.length, 0)] := by
  unfold get_matching_blocks
  simp only [matchingBlocksRec, find_longest_match_self a]
  by_cases h : a.length = 0
  · rw [if_pos (by simpa using h)]
    rw [if_pos h]
    unfold nonAdjacentBlocks
    simp [h]
  · rw [if_neg (by simpa using h)]
    rw [if_neg h]
    rw [if_neg (by simp), if_neg (by simp)]
    unfold nonAdjacentBlocks
    simp [h]

theorem get_opcodes_self (a : List DLine) :
    get_opcodes noJunk a a =
      if a.length = 0 then [] else [(DTag.equal, 0, a.length, 0, a.length)] := by
  unfold get_opcodes
  rw [get_matching_blocks_self]
  by_cases h : a.length = 0
  · rw [if_pos h, if_pos h]
    unfold opcodesFromBlocks
    simp
  · rw [if_neg h, if_neg h]
    unfold opcodesFromBlocks
    simp [h]

theorem differCompare_self (a : List DLine) :
    differCompare a a = a.map (fun l => ' ' :: ' ' :: l) := by
  unfold differCompare
  rw [get_opcodes_self]
  by_cases h : a.length = 0
  · rw [if_pos h]
    have : a = [] := List.length_eq_zero.mp h
    subst this
    simp
  · rw [if_neg h]
    simp only [List.foldr_cons, List.foldr_nil]
    unfold opEmit
    simp [differDump_full]

theorem restoreFirst_append (x y : List DLine) :
    restoreFirst (x ++ y) = restoreFirst x ++ restoreFirst y := by
  unfold restoreFirst
  rw [List.filter_append, List.map_append]

theorem restoreSecond_append (x y : List DLine) :
    restoreSecond (x ++ y) = restoreSecond x ++ restoreSecond y := by
  unfold restoreSecond
  rw [List.filter_append, List.map_append]

theorem restoreFirst_map_tag (t : Char) (x : List DLine) :
    restoreFirst (x.map (fun l => t :: ' ' :: l)) =
      if t = '-' ∨ t = ' ' then x else [] := by
  unfold restoreFirst
  induction x with
  | nil => simp
  | cons l ls ih =>
    simp only [List.map_cons, List.filter_cons]
    by_cases h : t = '-' ∨ t = ' '
    · rw [if_pos h] at ih ⊢
      have hp : ((t :: ' ' :: l).take 2 = ['-', ' '] ∨ (t :: ' ' :: l).take 2 = [' ', ' ']) := by
        rcases h with h | h <;> subst h <;> simp
      rw [if_pos (decide_eq_true hp), List.map_cons]
      rw [show (t :: ' ' :: l).drop 2 = l from rfl]
      exact congrArg _ ih
    · rw [if_neg h] at ih ⊢
      have hp : ¬((t :: ' ' :: l).take 2 = ['-', ' '] ∨ (t :: ' ' :: l).take 2 = [' ', ' ']) := by
        intro hc
        rcases hc with hc | hc <;> (simp at hc; exact h (by tauto))
      rw [if_neg (by simp only [decide_eq_true_eq]; exact hp)]
      exact ih

theorem restoreSecond_map_tag (t : Char) (x : List DLine) :
    restoreSecond (x.map (fun l => t :: ' ' :: l)) =
      if t = '+' ∨ t = ' ' then x else [] := by
  unfold restoreSecond
  induction x with
  | nil => simp
  | cons l ls ih =>
    simp only [List.map_cons, List.filter_cons]
    by_cases h : t = '+' ∨ t = ' '
    · rw [if_pos h] at ih ⊢
      have hp : ((t :: ' ' :: l).take 2 = ['+', ' '] ∨ (t :: ' ' :: l).take 2 = [' ', ' ']) := by
        rcases h with h | h <;> subst h <;> simp
      rw [if_pos (decide_eq_true hp), List.map_cons]
      rw [show (t :: ' ' :: l).drop 2 = l from rfl]
      exact congrArg _ ih
    · rw [if_neg h] at ih ⊢
      have hp : ¬((t :: ' ' :: l).take 2 = ['+', ' '] ∨ (t :: ' ' :: l).take 2 = [' ', ' ']) := by
        intro hc
        rcases hc with hc | hc <;> (simp at hc; exact h (by tauto))
      rw [if_neg (by simp only [decide_eq_true_eq]; exact hp)]
      exact ih

theorem sliceOf_empty {β : Type} (x : List β) (lo hi : Nat) (h : hi ≤ lo) :
    sliceOf x lo hi = [] := by
  unfold sliceOf
  rw [show hi - lo = 0 from by omega]
  simp

theorem sliceOf_split {β : Type} (x : List β) (lo mid hi : Nat)
    (h1 : lo ≤ mid) (h2 : mid ≤ hi) :
    sliceOf x lo hi = sliceOf x lo mid ++ sliceOf x mid hi := by
  unfold sliceOf
  rw [show hi - lo = (mid - lo) + (hi - mid) from by omega]
  rw [List.take_add]
  congr 1
  rw [List.drop_drop]
  rw [show lo + (mid - lo) = mid from by omega]

theorem sliceOf_cons (x : List DLine) (lo hi : Nat) (h1 : lo < hi) (h2 : lo < x.length) :
    sliceOf x lo hi = x.getD lo [] :: sliceOf x (lo + 1) hi := by
  unfold sliceOf
  rw [List.getD_eq_getElem x [] h2, List.drop_eq_getElem_cons h2]
  rw [show hi - lo = (hi - (lo + 1)) + 1 from by omega]
  rfl

theorem sliceOf_singleton (x : List DLine) (lo : Nat) (h : lo < x.length) :
    sliceOf x lo (lo + 1) = [x.getD lo []] := by
  rw [sliceOf_cons x lo (lo+1) (by omega) h, sliceOf_empty x (lo+1) (lo+1) (by omega)]

theorem sliceOf_congr (a b : List DLine) (ai bj k : Nat)
    (ha : ai + k ≤ a.length) (hb : bj + k ≤ b.length)
    (heq : ∀ t, t < k → a.getD (ai + t) [] = b.getD (bj + t) []) :
    sliceOf a ai (ai + k) = sliceOf b bj (bj + k) := by
  induction k generalizing ai bj with
  | zero =>
    simp only [Nat.add_zero]
    rw [sliceOf_empty a ai ai (by omega), sliceOf_empty b bj bj (by omega)]
  | succ k ih =>
    rw [sliceOf_cons a ai (ai + (k+1)) (by omega) (by omega),
        sliceOf_cons b bj (bj + (k+1)) (by omega) (by omega)]
    have h0 := heq 0 (by omega)
    simp only [Nat.add_zero] at h0
    rw [h0]
    congr 1
    rw [show ai + (k + 1) = (ai + 1) + k from by omega,
        show bj + (k + 1) = (bj + 1) + k from by omega]
    exact ih (ai + 1) (bj + 1) (by omega) (by omega) (fun t ht => by
      have := heq (t + 1) (by omega)
      rw [show ai + 1 + t = ai + (t + 1) from by omega,
          show bj + 1 + t = bj + (t + 1) from by omega]
      exact this)

theorem FlmOk_mono (alo ahi ahi' blo bhi : Nat) (a b : List DLine) (m : FlmBest)
    (h : FlmOk alo ahi blo bhi a b m) (hle : ahi ≤ ahi') :
    FlmOk alo ahi' blo bhi a b m := by
  obtain ⟨h1, h2, h3, h4, h5⟩ := h
  exact ⟨h1, by omega, h3, h4, h5⟩

theorem flmInner_ok (a b : List DLine) (alo blo bhi i : Nat) (hialo : alo ≤ i)
    (rowOld : Nat → Nat) (hOld : RowOkG a b alo blo bhi i rowOld) :
    ∀ (js : List Nat) (st : (Nat → Nat) × FlmBest),
      (∀ j ∈ js, blo ≤ j ∧ j < bhi ∧ b.getD j [] = a.getD i []) →
      RowOkG a b alo blo bhi (i + 1) st.1 →
      FlmOk alo (i + 1) blo bhi a b st.2 →
      RowOkG a b alo blo bhi (i + 1) (js.foldl (flmStep rowOld i) st).1 ∧
      FlmOk alo (i + 1) blo bhi a b (js.foldl (flmStep rowOld i) st).2 := by
  intro js
  induction js with
  | nil => intro st _ h1 h2; exact ⟨h1, h2⟩
  | cons j js ih =>
    intro st hmem hrow hbest
    obtain ⟨row, best⟩ := st
    rw [List.foldl_cons]
    obtain ⟨hjlo, hjhi, hjeq⟩ := hmem j (by simp)
    -- the k computed for column j, and its chain properties
    have hk : ∀ k, k = (if j = 0 then 0 else rowOld (j - 1)) + 1 →
        (alo + k ≤ i + 1 ∧ blo + k ≤ j + 1 ∧
         ∀ t, t < k → a.getD (i - t) [] = b.getD (j - t) []) := by
      intro k hkdef
      by_cases hj0 : j = 0
      · subst hj0
        rw [if_pos rfl] at hkdef
        refine ⟨by omega, by omega, ?_⟩
        intro t ht
        have : t = 0 := by omega
        subst this
        simpa using hjeq.symm
      · rw [if_neg hj0] at hkdef
        by_cases hc0 : 0 < rowOld (j - 1)
        · obtain ⟨hi1, hc1, hc2, _, hc4⟩ := hOld (j - 1) hc0
          refine ⟨by omega, by omega, ?_⟩
          intro t ht
          match t with
          | 0 => simpa using hjeq.symm
          | s + 1 =>
            have hs : s < rowOld (j - 1) := by omega
            have := hc4 s hs
            rw [show i - (s + 1) = i - 1 - s from by omega,
                show j - (s + 1) = j - 1 - s from by omega]
            exact this
        · have : rowOld (j - 1) = 0 := by omega
          rw [this] at hkdef
          refine ⟨by omega, by omega, ?_⟩
          intro t ht
          have : t = 0 := by omega
          subst this
          simpa using hjeq.symm
    obtain ⟨hka, hkb, hkc⟩ := hk _ rfl
    set k := (if j = 0 then 0 else rowOld (j - 1)) + 1 with hkdef
    have hstep : flmStep rowOld i (row, best) j =
        (fun j' => if j' = j then k else row j',
         if best.bs < k then ⟨i + 1 - k, j + 1 - k, k⟩ else best) := rfl
    rw [hstep]
    have hk1 : 1 ≤ k := by rw [hkdef]; omega
    refine ih _ (fun j' hj' => hmem j' (by simp [hj'])) ?_ ?_
    · -- new row invariant
      intro j' hj'
      simp only at hj' ⊢
      by_cases hjj : j' = j
      · subst hjj
        rw [if_pos rfl] at hj'
        rw [if_pos rfl]
        refine ⟨by omega, by omega, by omega, hjhi, ?_⟩
        intro t ht
        rw [show i + 1 - 1 - t = i - t from by omega]
        exact hkc t (by omega)
      · rw [if_neg hjj] at hj' ⊢
        exact hrow j' hj'
    · -- best invariant
      simp only
      by_cases hlt : best.bs < k
      · rw [if_pos hlt]
        unfold FlmOk
        dsimp only
        refine ⟨by omega, by omega, by omega, by omega, ?_⟩
        intro t ht
        rw [show i + 1 - k + t = i - (k - 1 - t) from by omega,
            show j + 1 - k + t = j - (k - 1 - t) from by omega]
        exact hkc _ (by omega)
      · rw [if_neg hlt]
        exact hbest

theorem flmFold_ok (a b : List DLine) (alo blo bhi : Nat) :
    ∀ (n i0 : Nat) (st : (Nat → Nat) × FlmBest), alo ≤ i0 →
      RowOkG a b alo blo bhi i0 st.1 →
      FlmOk alo i0 blo bhi a b st.2 →
      FlmOk alo (i0 + n) blo bhi a b
        (((List.range' i0 n).foldl (flmRow a (b2jOf b) blo bhi) st)).2 := by
  intro n
  induction n with
  | zero => intro i0 st _ _ h; simpa using h
  | succ n ih =>
    intro i0 st hlo hrow hbest
    rw [List.range'_succ, List.foldl_cons]
    have hmem : ∀ j ∈ (b2jOf b (a.getD i0 default)).filter
        (fun j => decide (blo ≤ j) && decide (j < bhi)),
        blo ≤ j ∧ j < bhi ∧ b.getD j [] = a.getD i0 [] := by
      intro j hj
      rw [List.mem_filter] at hj
      obtain ⟨hj1, hj2⟩ := hj
      simp only [Bool.and_eq_true, decide_eq_true_eq] at hj2
      refine ⟨hj2.1, hj2.2, ?_⟩
      unfold b2jOf at hj1
      by_cases hpop : isPopular b (a.getD i0 default)
      · rw [if_pos hpop] at hj1; simp at hj1
      · rw [if_neg hpop] at hj1
        exact (elemPositions_mem _ b 0 j hj1).2.2
    have hinner := flmInner_ok a b alo blo bhi i0 hlo st.1 hrow
      ((b2jOf b (a.getD i0 default)).filter
        (fun j => decide (blo ≤ j) && decide (j < bhi)))
      (fun _ => 0, st.2) hmem
      (by intro j hj; simp at hj)
      (FlmOk_mono alo i0 (i0 + 1) blo bhi a b st.2 hbest (by omega))
    have hstep : flmRow a (b2jOf b) blo bhi st i0 =
        ((b2jOf b (a.getD i0 default)).filter
          (fun j => decide (blo ≤ j) && decide (j < bhi))).foldl
          (flmStep st.1 i0) (fun _ => 0, st.2) := rfl
    rw [hstep]
    rw [show i0 + (n + 1) = (i0 + 1) + n from by omega]
    exact ih (i0 + 1) _ (by omega) hinner.1 hinner.2

theorem flmLoop_ok (a b : List DLine) (alo ahi blo bhi : Nat)
    (ha : alo ≤ ahi) (hb : blo ≤ bhi) :
    FlmOk alo ahi blo bhi a b (flmLoop a (b2jOf b) alo ahi blo bhi) := by
  unfold flmLoop
  have := flmFold_ok a b alo blo bhi (ahi - alo) alo
    (fun _ => 0, ⟨alo, blo, 0⟩) (by omega)
    (by intro j hj; simp at hj)
    (by refine ⟨?_, ?_, ?_, ?_, ?_⟩ <;> dsimp only <;> omega)
  rw [show alo + (ahi - alo) = ahi from by omega] at this
  exact this

theorem extendBack_ok (a b : List DLine) (test : DLine → Bool)
    (alo ahi blo bhi : Nat) :
    ∀ (fuel : Nat) (best : FlmBest), FlmOk alo ahi blo bhi a b best →
      FlmOk alo ahi blo bhi a b (extendBack a b test alo blo fuel best) := by
  intro fuel
  induction fuel with
  | zero => intro best h; exact h
  | succ fuel ih =>
    intro best hbest
    unfold extendBack
    split
    · rename_i hg
      simp only [Bool.and_eq_true, decide_eq_true_eq] at hg
      obtain ⟨⟨⟨hg1, hg2⟩, _⟩, hg4⟩ := hg
      refine ih _ ?_
      obtain ⟨h1, h2, h3, h4, h5⟩ := hbest
      unfold FlmOk
      dsimp only
      refine ⟨by omega, by omega, by omega, by omega, ?_⟩
      intro t ht
      match t with
      | 0 =>
        simpa using hg4
      | s + 1 =>
        rw [show best.bi - 1 + (s + 1) = best.bi + s from by omega,
            show best.bj - 1 + (s + 1) = best.bj + s from by omega]
        exact h5 s (by omega)
    · exact hbest

theorem extendFwd_ok (a b : List DLine) (test : DLine → Bool)
    (alo ahi blo bhi : Nat) :
    ∀ (fuel : Nat) (best : FlmBest), FlmOk alo ahi blo bhi a b best →
      FlmOk alo ahi blo bhi a b (extendFwd a b test ahi bhi fuel best) := by
  intro fuel
  induction fuel with
  | zero => intro best h; exact h
  | succ fuel ih =>
    intro best hbest
    unfold extendFwd
    split
    · rename_i hg
      simp only [Bool.and_eq_true, decide_eq_true_eq] at hg
      obtain ⟨⟨⟨hg1, hg2⟩, _⟩, hg4⟩ := hg
      refine ih _ ?_
      obtain ⟨h1, h2, h3, h4, h5⟩ := hbest
      unfold FlmOk
      dsimp only
      refine ⟨by omega, by omega, by omega, by omega, ?_⟩
      intro t ht
      by_cases hts : t = best.bs
      · subst hts
        exact hg4
      · exact h5 t (by omega)
    · obtain ⟨h1, h2, h3, h4, h5⟩ := hbest
      exact ⟨h1, h2, h3, h4, h5⟩

theorem find_longest_match_ok (a b : List DLine) (alo ahi blo bhi : Nat)
    (ha : alo ≤ ahi) (hb : blo ≤ bhi) :
    FlmOk alo ahi blo bhi a b
      (find_longest_match noJunk a b (b2jOf b) alo ahi blo bhi) := by
  unfold find_longest_match
  apply extendFwd_ok
  apply extendBack_ok
  apply extendFwd_ok
  apply extendBack_ok
  exact flmLoop_ok a b alo ahi blo bhi ha hb

theorem Chained_anti (a b : List DLine) :
    ∀ (l : List (Nat × Nat × Nat)) (ci cj ci' cj' ihi jhi : Nat),
      ci' ≤ ci → cj' ≤ cj → Chained a b ci cj l ihi jhi →
      Chained a b ci' cj' l ihi jhi := by
  intro l
  induction l with
  | nil => intro _ _ _ _ _ _ _ _ _; trivial
  | cons blk rest ih =>
    intro ci cj ci' cj' ihi jhi h1 h2 hc
    obtain ⟨i, j, k⟩ := blk
    obtain ⟨hc1, hc2, hc3, hc4, hc5, hc6, hc7⟩ := hc
    exact ⟨by omega, by omega, hc3, hc4, hc5, hc6, hc7⟩

theorem Chained_append (a b : List DLine) :
    ∀ (xs ys : List (Nat × Nat × Nat)) (ci cj mi mj ihi jhi : Nat),
      ci ≤ mi → cj ≤ mj → mi ≤ ihi → mj ≤ jhi →
      Chained a b ci cj xs mi mj → Chained a b mi mj ys ihi jhi →
      Chained a b ci cj (xs ++ ys) ihi jhi := by
  intro xs
  induction xs with
  | nil =>
    intro ys ci cj mi mj ihi jhi h1 h2 _ _ _ hys
    exact Chained_anti a b ys mi mj ci cj ihi jhi h1 h2 hys
  | cons blk rest ih =>
    intro ys ci cj mi mj ihi jhi h1 h2 h3 h4 hxs hys
    obtain ⟨i, j, k⟩ := blk
    obtain ⟨hc1, hc2, hc3, hc4, hc5, hc6, hc7⟩ := hxs
    exact ⟨hc1, hc2, hc3, by omega, by omega, hc6,
      ih ys (i + k) (j + k) mi mj ihi jhi hc4 hc5 h3 h4 hc7 hys⟩

theorem matchingBlocksRec_chained (a b : List DLine) :
    ∀ (fuel alo ahi blo bhi : Nat), alo ≤ ahi → blo ≤ bhi →
      Chained a b alo blo
        (matchingBlocksRec noJunk a b (b2jOf b) fuel alo ahi blo bhi) ahi bhi := by
  intro fuel
  induction fuel with
  | zero => intro _ _ _ _ _ _; trivial
  | succ fuel ih =>
    intro alo ahi blo bhi ha hb
    have hm := find_longest_match_ok a b alo ahi blo bhi ha hb
    obtain ⟨hm1, hm2, hm3, hm4, hm5⟩ := hm
    rw [show matchingBlocksRec noJunk a b (b2jOf b) (fuel + 1) alo ahi blo bhi =
        (if (find_longest_match noJunk a b (b2jOf b) alo ahi blo bhi).bs = 0 then []
         else
           (if (decide (alo < (find_longest_match noJunk a b (b2jOf b) alo ahi blo bhi).bi) &&
                decide (blo < (find_longest_match noJunk a b (b2jOf b) alo ahi blo bhi).bj)) = true then
             matchingBlocksRec noJunk a b (b2jOf b) fuel alo
               (find_longest_match noJunk a b (b2jOf b) alo ahi blo bhi).bi blo
               (find_longest_match noJunk a b (b2jOf b) alo ahi blo bhi).bj
           else []) ++
           ((find_longest_match noJunk a b (b2jOf b) alo ahi blo bhi).bi,
            (find_longest_match noJunk a b (b2jOf b) alo ahi blo bhi).bj,
            (find_longest_match noJunk a b (b2jOf b) alo ahi blo bhi).bs) ::
           (if (decide ((find_longest_match noJunk a b (b2jOf b) alo ahi blo bhi).bi +
                  (find_longest_match noJunk a b (b2jOf b) alo ahi blo bhi).bs < ahi) &&
                decide ((find_longest_match noJunk a b (b2jOf b) alo ahi blo bhi).bj +
                  (find_longest_match noJunk a b (b2jOf b) alo ahi blo bhi).bs < bhi)) = true then
             matchingBlocksRec noJunk a b (b2jOf b) fuel
               ((find_longest_match noJunk a b (b2jOf b) alo ahi blo bhi).bi +
                (find_longest_match noJunk a b (b2jOf b) alo ahi blo bhi).bs) ahi
               ((find_longest_match noJunk a b (b2jOf b) alo ahi blo bhi).bj +
                (find_longest_match noJunk a b (b2jOf b) alo ahi blo bhi).bs) bhi
           else [])) from rfl]
    split
    · trivial
    · rename_i hbs
      apply Chained_append a b _ _ alo blo
        (find_longest_match noJunk a b (b2jOf b) alo ahi blo bhi).bi
        (find_longest_match noJunk a b (b2jOf b) alo ahi blo bhi).bj
        ahi bhi hm1 hm3 (by omega) (by omega)
      · split
        · rename_i hg
          simp only [Bool.and_eq_true, decide_eq_true_eq] at hg
          exact ih alo _ blo _ (by omega) (by omega)
        · trivial
      · refine ⟨le_refl _, le_refl _, by omega, by omega, by omega, hm5, ?_⟩
        split
        · rename_i hg
          simp only [Bool.and_eq_true, decide_eq_true_eq] at hg
          exact ih _ ahi _ bhi (by omega) (by omega)
        · trivial

theorem nonAdjacentBlocks_eq (la lb : Nat) (blocks : List (Nat × Nat × Nat)) :
    nonAdjacentBlocks la lb blocks =
      ((blocks.foldl mergeStep ([], (0, 0, 0))).1 ++
       if (blocks.foldl mergeStep ([], (0, 0, 0))).2.2.2 ≠ 0
       then [(blocks.foldl mergeStep ([], (0, 0, 0))).2] else []) ++ [(la, lb, 0)] := rfl

theorem mergeStep_adj (acc : List (Nat × Nat × Nat)) (i1 j1 k1 i2 j2 k2 : Nat)
    (h : i1 + k1 = i2 ∧ j1 + k1 = j2) :
    mergeStep (acc, (i1, j1, k1)) (i2, j2, k2) = (acc, (i1, j1, k1 + k2)) := by
  unfold mergeStep
  simp only
  rw [if_pos h]

theorem mergeStep_nonadj (acc : List (Nat × Nat × Nat)) (i1 j1 k1 i2 j2 k2 : Nat)
    (h : ¬(i1 + k1 = i2 ∧ j1 + k1 = j2)) :
    mergeStep (acc, (i1, j1, k1)) (i2, j2, k2) =
      (acc ++ if k1 ≠ 0 then [(i1, j1, k1)] else [], (i2, j2, k2)) := by
  unfold mergeStep
  simp only
  rw [if_neg h]

theorem mergeFold_spec (a b : List DLine) (la lb : Nat) :
    ∀ (blocks acc : List (Nat × Nat × Nat)) (i1 j1 k1 : Nat),
      Chained a b (i1 + k1) (j1 + k1) blocks la lb →
      (∀ rest, Chained a b i1 j1 rest la lb → Chained a b 0 0 (acc ++ rest) la lb) →
      (k1 ≠ 0 → i1 + k1 ≤ la ∧ j1 + k1 ≤ lb ∧ 1 ≤ k1 ∧
        ∀ t, t < k1 → a.getD (i1 + t) [] = b.getD (j1 + t) []) →
      (k1 = 0 → acc = []) →
      Chained a b 0 0
        ((blocks.foldl mergeStep (acc, (i1, j1, k1))).1 ++
         if (blocks.foldl mergeStep (acc, (i1, j1, k1))).2.2.2 ≠ 0 then
           [(blocks.foldl mergeStep (acc, (i1, j1, k1))).2] else []) la lb := by
  intro blocks
  induction blocks with
  | nil =>
    intro acc i1 j1 k1 _ ha hb hc
    simp only [List.foldl_nil]
    by_cases hk : k1 = 0
    · rw [if_neg (by simp [hk])]
      have := ha [] trivial
      rw [hc hk] at this ⊢
      simpa using this
    · rw [if_pos (by simp [hk])]
      obtain ⟨hb1, hb2, hb3, hb4⟩ := hb hk
      exact ha [(i1, j1, k1)] ⟨le_refl _, le_refl _, hb3, hb1, hb2, hb4, trivial⟩
  | cons blk rest ih =>
    intro acc i1 j1 k1 hch ha hb hc
    obtain ⟨i2, j2, k2⟩ := blk
    obtain ⟨hh1, hh2, hh3, hh4, hh5, hh6, hh7⟩ := hch
    rw [List.foldl_cons]
    by_cases hadj : i1 + k1 = i2 ∧ j1 + k1 = j2
    · rw [mergeStep_adj acc i1 j1 k1 i2 j2 k2 hadj]
      apply ih acc i1 j1 (k1 + k2)
      · rw [show i1 + (k1 + k2) = i2 + k2 from by omega,
            show j1 + (k1 + k2) = j2 + k2 from by omega]
        exact hh7
      · exact ha
      · intro _
        refine ⟨by omega, by omega, by omega, ?_⟩
        intro t ht
        by_cases htk : t < k1
        · exact (hb (by omega)).2.2.2 t htk
        · have := hh6 (t - k1) (by omega)
          rw [show i1 + t = i2 + (t - k1) from by omega,
              show j1 + t = j2 + (t - k1) from by omega]
          exact this
      · intro h; omega
    · rw [mergeStep_nonadj acc i1 j1 k1 i2 j2 k2 hadj]
      apply ih _ i2 j2 k2
      · exact hh7
      · intro rest' hrest'
        rw [List.append_assoc]
        apply ha
        by_cases hk : k1 = 0
        · rw [if_neg (by simp [hk])]
          simp only [List.nil_append]
          exact Chained_anti a b rest' i2 j2 i1 j1 la lb (by omega) (by omega) hrest'
        · rw [if_pos (by simp [hk])]
          obtain ⟨hb1, hb2, hb3, hb4⟩ := hb hk
          exact ⟨le_refl _, le_refl _, hb3, hb1, hb2, hb4,
            Chained_anti a b rest' i2 j2 (i1 + k1) (j1 + k1) la lb hh1 hh2 hrest'⟩
      · intro _
        exact ⟨hh4, hh5, hh3, hh6⟩
      · intro h; omega

theorem nonAdjacentBlocks_chained (a b : List DLine) (la lb : Nat)
    (blocks : List (Nat × Nat × Nat))
    (h : Chained a b 0 0 blocks la lb) :
    ∃ M, nonAdjacentBlocks la lb blocks = M ++ [(la, lb, 0)] ∧
      Chained a b 0 0 M la lb := by
  refine ⟨_, nonAdjacentBlocks_eq la lb blocks, ?_⟩
  apply mergeFold_spec a b la lb blocks [] 0 0 0
  · simpa using h
  · intro rest h'; simpa using h'
  · intro h'; omega
  · intro _; rfl

theorem opcodesFromBlocks_eq (blocks : List (Nat × Nat × Nat)) :
    opcodesFromBlocks blocks = (blocks.foldl opStep (0, 0, [])).2.2 := rfl

theorem opStep_eq (i j : Nat) (ans : List (DTag × Nat × Nat × Nat × Nat))
    (ai bj size : Nat) :
    opStep (i, j, ans) (ai, bj, size) =
      (ai + size, bj + size,
       ans ++
       ((if i < ai ∧ j < bj then [(DTag.replace, i, ai, j, bj)]
         else if i < ai then [(DTag.delete, i, ai, j, bj)]
         else if j < bj then [(DTag.insert, i, ai, j, bj)]
         else []) ++
        (if size ≠ 0 then [(DTag.equal, ai, ai + size, bj, bj + size)] else []))) := by
  unfold opStep
  simp only
  by_cases h1 : i < ai ∧ j < bj
  · rw [if_pos h1, if_pos h1]
    by_cases h4 : size ≠ 0
    · rw [if_pos h4, if_pos h4]; simp
    · rw [if_neg h4, if_neg h4]; simp
  · rw [if_neg h1, if_neg h1]
    by_cases h2 : i < ai
    · rw [if_pos h2, if_pos h2]
      by_cases h4 : size ≠ 0
      · rw [if_pos h4, if_pos h4]; simp
      · rw [if_neg h4, if_neg h4]; simp
    · rw [if_neg h2, if_neg h2]
      by_cases h3 : j < bj
      · rw [if_pos h3, if_pos h3]
        by_cases h4 : size ≠ 0
        · rw [if_pos h4, if_pos h4]; simp
        · rw [if_neg h4, if_neg h4]; simp
      · rw [if_neg h3, if_neg h3]
        by_cases h4 : size ≠ 0
        · rw [if_pos h4, if_pos h4]; simp
        · rw [if_neg h4, if_neg h4]; simp

theorem opcodesFold_eq :
    ∀ (blocks : List (Nat × Nat × Nat)) (i j : Nat)
      (ans : List (DTag × Nat × Nat × Nat × Nat)),
      (blocks.foldl opStep (i, j, ans)).2.2 = ans ++ opsRec i j blocks := by
  intro blocks
  induction blocks with
  | nil => intro i j ans; simp [opsRec]
  | cons blk rest ih =>
    intro i j ans
    obtain ⟨ai, bj, size⟩ := blk
    rw [List.foldl_cons, opStep_eq, ih]
    rw [opsRec]
    simp [List.append_assoc]

theorem get_opcodes_opsRec (blocks : List (Nat × Nat × Nat)) :
    opcodesFromBlocks blocks = opsRec 0 0 blocks := by
  rw [opcodesFromBlocks_eq, opcodesFold_eq]
  simp

theorem foldl_inv {σ β : Type} (P : σ → Prop) :
    ∀ (l : List β) (f : σ → β → σ) (s : σ), P s →
      (∀ s' x, x ∈ l → P s' → P (f s' x)) → P (l.foldl f s) := by
  intro l
  induction l with
  | nil => intro f s hs _; exact hs
  | cons x xs ih =>
    intro f s hs hstep
    rw [List.foldl_cons]
    exact ih f (f s x) (hstep s x (by simp) hs)
      (fun s' y hy hs' => hstep s' y (by simp [hy]) hs')

theorem fancyScan_inv (a b : List DLine) (alo ahi blo bhi : Nat) :
    ScanInv a b alo ahi blo bhi (fancyScan a b alo ahi blo bhi) := by
  unfold fancyScan
  apply foldl_inv (ScanInv a b alo ahi blo bhi)
  · refine ⟨?_, ?_, ?_⟩
    · intro i j h; simp at h
    · intro i j h; simp at h
    · intro _; rfl
  · intro st j hj hst
    rw [List.mem_range'_1] at hj
    apply foldl_inv (ScanInv a b alo ahi blo bhi)
    · exact hst
    · intro st' i hi hst'
      rw [List.mem_range'_1] at hi
      obtain ⟨h1, h2, h3⟩ := hst'
      simp only
      split
      · rename_i heq
        match hep : st'.eqPair with
        | none =>
          refine ⟨?_, h2, ?_⟩
          · intro i' j' h
            simp only [Option.some.injEq, Prod.mk.injEq] at h
            obtain ⟨hi', hj'⟩ := h
            subst hi'; subst hj'
            exact ⟨by omega, by omega, by omega, by omega, heq⟩
          · intro h; exact h3 h
        | some p =>
          exact ⟨h1, h2, h3⟩
      · split
        · refine ⟨h1, ?_, ?_⟩
          · intro i' j' h
            simp only [Option.some.injEq, Prod.mk.injEq] at h
            obtain ⟨hi', hj'⟩ := h
            subst hi'; subst hj'
            exact ⟨by omega, by omega, by omega, by omega⟩
          · intro h; simp at h
        · exact ⟨h1, h2, h3⟩

theorem restoreFirst_dump_minus (a : List DLine) (lo hi : Nat)
    (h1 : lo ≤ hi) (h2 : hi ≤ a.length) :
    restoreFirst (differDump '-' a lo hi) = sliceOf a lo hi := by
  rw [differDump_slice '-' a lo hi h1 h2, restoreFirst_map_tag]
  simp

theorem restoreSecond_dump_minus (a : List DLine) (lo hi : Nat)
    (h1 : lo ≤ hi) (h2 : hi ≤ a.length) :
    restoreSecond (differDump '-' a lo hi) = [] := by
  rw [differDump_slice '-' a lo hi h1 h2, restoreSecond_map_tag]
  simp

theorem restoreFirst_dump_plus (b : List DLine) (lo hi : Nat)
    (h1 : lo ≤ hi) (h2 : hi ≤ b.length) :
    restoreFirst (differDump '+' b lo hi) = [] := by
  rw [differDump_slice '+' b lo hi h1 h2, restoreFirst_map_tag]
  simp

theorem restoreSecond_dump_plus (b : List DLine) (lo hi : Nat)
    (h1 : lo ≤ hi) (h2 : hi ≤ b.length) :
    restoreSecond (differDump '+' b lo hi) = sliceOf b lo hi := by
  rw [differDump_slice '+' b lo hi h1 h2, restoreSecond_map_tag]
  simp

theorem restoreFirst_dump_space (a : List DLine) (lo hi : Nat)
    (h1 : lo ≤ hi) (h2 : hi ≤ a.length) :
    restoreFirst (differDump ' ' a lo hi) = sliceOf a lo hi := by
  rw [differDump_slice ' ' a lo hi h1 h2, restoreFirst_map_tag]
  simp

theorem restoreSecond_dump_space (a : List DLine) (lo hi : Nat)
    (h1 : lo ≤ hi) (h2 : hi ≤ a.length) :
    restoreSecond (differDump ' ' a lo hi) = sliceOf a lo hi := by
  rw [differDump_slice ' ' a lo hi h1 h2, restoreSecond_map_tag]
  simp

theorem restoreFirst_plainReplace (a b : List DLine) (alo ahi blo bhi : Nat)
    (h1 : alo ≤ ahi) (h2 : ahi ≤ a.length) (h3 : blo ≤ bhi) (h4 : bhi ≤ b.length) :
    restoreFirst (plainReplace a b alo ahi blo bhi) = sliceOf a alo ahi := by
  unfold plainReplace
  split
  · rw [restoreFirst_append, restoreFirst_dump_plus b blo bhi h3 h4,
        restoreFirst_dump_minus a alo ahi h1 h2]
    simp
  · rw [restoreFirst_append, restoreFirst_dump_minus a alo ahi h1 h2,
        restoreFirst_dump_plus b blo bhi h3 h4]
    simp

theorem restoreSecond_plainReplace (a b : List DLine) (alo ahi blo bhi : Nat)
    (h1 : alo ≤ ahi) (h2 : ahi ≤ a.length) (h3 : blo ≤ bhi) (h4 : bhi ≤ b.length) :
    restoreSecond (plainReplace a b alo ahi blo bhi) = sliceOf b blo bhi := by
  unfold plainReplace
  split
  · rw [restoreSecond_append, restoreSecond_dump_plus b blo bhi h3 h4,
        restoreSecond_dump_minus a alo ahi h1 h2]
    simp
  · rw [restoreSecond_append, restoreSecond_dump_minus a alo ahi h1 h2,
        restoreSecond_dump_plus b blo bhi h3 h4]
    simp

theorem restoreFirst_qformat (al bl ats bts : List Char) :
    restoreFirst (qformat al bl ats bts) = [al] := by
  unfold qformat restoreFirst
  dsimp only
  split <;> split <;> simp

theorem restoreSecond_qformat (al bl ats bts : List Char) :
    restoreSecond (qformat al bl ats bts) = [bl] := by
  unfold qformat restoreSecond
  dsimp only
  split <;> split <;> simp

theorem restoreFirst_synch (a b : List DLine) (bi bj : Nat) (idf : Bool) :
    restoreFirst (fancySynchOut a b bi bj idf) = [a.getD bi []] := by
  unfold fancySynchOut
  split
  · unfold restoreFirst
    simp
  · exact restoreFirst_qformat _ _ _ _

theorem restoreSecond_synch_eq (a b : List DLine) (bi bj : Nat) :
    restoreSecond (fancySynchOut a b bi bj true) = [a.getD bi []] := by
  unfold fancySynchOut
  rw [if_pos rfl]
  unfold restoreSecond
  simp

theorem restoreSecond_synch_ne (a b : List DLine) (bi bj : Nat) :
    restoreSecond (fancySynchOut a b bi bj false) = [b.getD bj []] := by
  unfold fancySynchOut
  rw [if_neg (by simp)]
  exact restoreSecond_qformat _ _ _ _

theorem fancyStep_true_eq (a b : List DLine) (fuel alo ahi blo bhi : Nat) :
    fancyStep a b (fuel + 1) true alo ahi blo bhi =
      (if ratioLt (fancyScan a b alo ahi blo bhi).bestRatio ⟨75, 100⟩ then
        match (fancyScan a b alo ahi blo bhi).eqPair with
        | none => plainReplace a b alo ahi blo bhi
        | some p =>
          fancyStep a b fuel false alo p.1 blo p.2 ++
          fancySynchOut a b p.1 p.2 true ++
          fancyStep a b fuel false (p.1 + 1) ahi (p.2 + 1) bhi
      else
        match (fancyScan a b alo ahi blo bhi).best with
        | none => []
        | some p =>
          fancyStep a b fuel false alo p.1 blo p.2 ++
          fancySynchOut a b p.1 p.2 false ++
          fancyStep a b fuel false (p.1 + 1) ahi (p.2 + 1) bhi) := rfl

theorem fancyStep_false_eq (a b : List DLine) (fuel alo ahi blo bhi : Nat) :
    fancyStep a b (fuel + 1) false alo ahi blo bhi =
      (if alo < ahi then
        if blo < bhi then fancyStep a b fuel true alo ahi blo bhi
        else differDump '-' a alo ahi
      else if blo < bhi then differDump '+' b blo bhi
      else []) := rfl

theorem fancyStep_restore (a b : List DLine) :
    ∀ (fuel : Nat) (flag : Bool) (alo ahi blo bhi : Nat),
      ahi ≤ a.length → bhi ≤ b.length →
      (flag = true → alo < ahi ∧ blo < bhi ∧ (ahi - alo) + (bhi - blo) ≤ fuel) →
      (flag = false → alo ≤ ahi ∧ blo ≤ bhi ∧
        ((ahi - alo) + (bhi - blo) + 1 ≤ fuel ∨ (ahi = alo ∧ bhi = blo))) →
      restoreFirst (fancyStep a b fuel flag alo ahi blo bhi) = sliceOf a alo ahi ∧
      restoreSecond (fancyStep a b fuel flag alo ahi blo bhi) = sliceOf b blo bhi := by
  intro fuel
  induction fuel with
  | zero =>
    intro flag alo ahi blo bhi _ _ ht hf
    cases flag
    · obtain ⟨h1, h2, h3⟩ := hf rfl
      have he : ahi = alo ∧ bhi = blo := by
        rcases h3 with h3 | h3
        · omega
        · exact h3
      rw [show fancyStep a b 0 false alo ahi blo bhi = [] from rfl]
      rw [sliceOf_empty a alo ahi (by omega), sliceOf_empty b blo bhi (by omega)]
      exact ⟨rfl, rfl⟩
    · obtain ⟨h1, h2, h3⟩ := ht rfl
      omega
  | succ fuel ih =>
    intro flag alo ahi blo bhi hla hlb ht hf
    cases flag
    · -- helper
      obtain ⟨h1, h2, h3⟩ := hf rfl
      rw [fancyStep_false_eq]
      by_cases ha : alo < ahi
      · rw [if_pos ha]
        by_cases hb : blo < bhi
        · rw [if_pos hb]
          exact ih true alo ahi blo bhi hla hlb
            (fun _ => ⟨ha, hb, by omega⟩) (by intro h; simp at h)
        · rw [if_neg hb]
          have hbe : blo = bhi := by omega
          rw [restoreFirst_dump_minus a alo ahi (by omega) hla,
              restoreSecond_dump_minus a alo ahi (by omega) hla,
              sliceOf_empty b blo bhi (by omega)]
          exact ⟨rfl, rfl⟩
      · rw [if_neg ha]
        by_cases hb : blo < bhi
        · rw [if_pos hb]
          rw [restoreFirst_dump_plus b blo bhi (by omega) hlb,
              restoreSecond_dump_plus b blo bhi (by omega) hlb,
              sliceOf_empty a alo ahi (by omega)]
          exact ⟨rfl, rfl⟩
        · rw [if_neg hb]
          rw [sliceOf_empty a alo ahi (by omega), sliceOf_empty b blo bhi (by omega)]
          exact ⟨rfl, rfl⟩
    · -- fancy replace
      obtain ⟨ha, hb, hfu⟩ := ht rfl
      rw [fancyStep_true_eq]
      obtain ⟨hs1, hs2, hs3⟩ := fancyScan_inv a b alo ahi blo bhi
      by_cases hcut : ratioLt (fancyScan a b alo ahi blo bhi).bestRatio ⟨75, 100⟩
      · rw [if_pos hcut]
        rcases hep : (fancyScan a b alo ahi blo bhi).eqPair with _ | p
        · exact ⟨restoreFirst_plainReplace a b alo ahi blo bhi (by omega) hla (by omega) hlb,
                 restoreSecond_plainReplace a b alo ahi blo bhi (by omega) hla (by omega) hlb⟩
        · obtain ⟨hp1, hp2, hp3, hp4, hp5⟩ := hs1 p.1 p.2 (by rw [hep])
          have hL := ih false alo p.1 blo p.2 (by omega) (by omega)
            (by intro h; simp at h) (fun _ => ⟨by omega, by omega, by omega⟩)
          have hR := ih false (p.1 + 1) ahi (p.2 + 1) bhi hla hlb
            (by intro h; simp at h) (fun _ => ⟨by omega, by omega, by omega⟩)
          constructor
          · rw [restoreFirst_append, restoreFirst_append, hL.1,
                restoreFirst_synch, hR.1]
            rw [sliceOf_split a alo p.1 ahi (by omega) (by omega),
                sliceOf_split a p.1 (p.1 + 1) ahi (by omega) (by omega),
                sliceOf_singleton a p.1 (by omega)]
            simp
          · rw [restoreSecond_append, restoreSecond_append, hL.2,
                restoreSecond_synch_eq, hR.2]
            rw [sliceOf_split b blo p.2 bhi (by omega) (by omega),
                sliceOf_split b p.2 (p.2 + 1) bhi (by omega) (by omega),
                sliceOf_singleton b p.2 (by omega), hp5]
            simp
      · rw [if_neg hcut]
        rcases hbp : (fancyScan a b alo ahi blo bhi).best with _ | p
        · exfalso
          apply hcut
          rw [hs3 hbp]
          rfl
        · obtain ⟨hp1, hp2, hp3, hp4⟩ := hs2 p.1 p.2 (by rw [hbp])
          have hL := ih false alo p.1 blo p.2 (by omega) (by omega)
            (by intro h; simp at h) (fun _ => ⟨by omega, by omega, by omega⟩)
          have hR := ih false (p.1 + 1) ahi (p.2 + 1) bhi hla hlb
            (by intro h; simp at h) (fun _ => ⟨by omega, by omega, by omega⟩)
          constructor
          · rw [restoreFirst_append, restoreFirst_append, hL.1,
                restoreFirst_synch, hR.1]
            rw [sliceOf_split a alo p.1 ahi (by omega) (by omega),
                sliceOf_split a p.1 (p.1 + 1) ahi (by omega) (by omega),
                sliceOf_singleton a p.1 (by omega)]
            simp
          · rw [restoreSecond_append, restoreSecond_append, hL.2,
                restoreSecond_synch_ne, hR.2]
            rw [sliceOf_split b blo p.2 bhi (by omega) (by omega),
                sliceOf_split b p.2 (p.2 + 1) bhi (by omega) (by omega),
                sliceOf_singleton b p.2 (by omega)]
            simp

theorem differCompare_emitAll (a b : List DLine) :
    differCompare a b = emitAll a b (get_opcodes noJunk a b) := rfl

theorem emitAll_append (a b : List DLine) :
    ∀ (xs ys : List (DTag × Nat × Nat × Nat × Nat)),
      emitAll a b (xs ++ ys) = emitAll a b xs ++ emitAll a b ys := by
  intro xs
  induction xs with
  | nil => intro ys; simp [emitAll]
  | cons x xs ih =>
    intro ys
    unfold emitAll at ih ⊢
    simp only [List.cons_append, List.foldr_cons]
    rw [ih ys, List.append_assoc]

theorem emitAll_single (a b : List DLine) (op : DTag × Nat × Nat × Nat × Nat) :
    emitAll a b [op] = opEmit a b op := by
  unfold emitAll
  simp

theorem emitAll_nil (a b : List DLine) : emitAll a b [] = [] := rfl

theorem opsRec_cons (ci cj i j k : Nat) (rest : List (Nat × Nat × Nat)) :
    opsRec ci cj ((i, j, k) :: rest) =
      (if ci < i ∧ cj < j then [(DTag.replace, ci, i, cj, j)]
       else if ci < i then [(DTag.delete, ci, i, cj, j)]
       else if cj < j then [(DTag.insert, ci, i, cj, j)]
       else []) ++
      (if k ≠ 0 then [(DTag.equal, i, i + k, j, j + k)] else []) ++
      opsRec (i + k) (j + k) rest := rfl

theorem gapEmit_restore (a b : List DLine) (ci i cj j : Nat)
    (hci : ci ≤ i) (hcj : cj ≤ j) (hi : i ≤ a.length) (hj : j ≤ b.length) :
    restoreFirst (emitAll a b
      (if ci < i ∧ cj < j then [(DTag.replace, ci, i, cj, j)]
       else if ci < i then [(DTag.delete, ci, i, cj, j)]
       else if cj < j then [(DTag.insert, ci, i, cj, j)]
       else [])) = sliceOf a ci i ∧
    restoreSecond (emitAll a b
      (if ci < i ∧ cj < j then [(DTag.replace, ci, i, cj, j)]
       else if ci < i then [(DTag.delete, ci, i, cj, j)]
       else if cj < j then [(DTag.insert, ci, i, cj, j)]
       else [])) = sliceOf b cj j := by
  by_cases h1 : ci < i ∧ cj < j
  · rw [if_pos h1, emitAll_single]
    show restoreFirst (fancyReplace a b (2 * (a.length + b.length) + 2) ci i cj j) = _ ∧
      restoreSecond (fancyReplace a b (2 * (a.length + b.length) + 2) ci i cj j) = _
    unfold fancyReplace
    exact fancyStep_restore a b (2 * (a.length + b.length) + 2) true ci i cj j hi hj
      (fun _ => ⟨h1.1, h1.2, by omega⟩) (by intro h; simp at h)
  · rw [if_neg h1]
    by_cases h2 : ci < i
    · rw [if_pos h2, emitAll_single]
      show restoreFirst (differDump '-' a ci i) = _ ∧
        restoreSecond (differDump '-' a ci i) = _
      rw [restoreFirst_dump_minus a ci i hci hi,
          restoreSecond_dump_minus a ci i hci hi,
          sliceOf_empty b cj j (by omega)]
      exact ⟨rfl, rfl⟩
    · rw [if_neg h2]
      by_cases h3 : cj < j
      · rw [if_pos h3, emitAll_single]
        show restoreFirst (differDump '+' b cj j) = _ ∧
          restoreSecond (differDump '+' b cj j) = _
        rw [restoreFirst_dump_plus b cj j hcj hj,
            restoreSecond_dump_plus b cj j hcj hj,
            sliceOf_empty a ci i (by omega)]
        exact ⟨rfl, rfl⟩
      · rw [if_neg h3, emitAll_nil]
        rw [sliceOf_empty a ci i (by omega), sliceOf_empty b cj j (by omega)]
        exact ⟨rfl, rfl⟩

theorem opsRec_restore (a b : List DLine) :
    ∀ (blocks : List (Nat × Nat × Nat)) (ci cj : Nat),
      Chained a b ci cj blocks a.length b.length →
      ci ≤ a.length → cj ≤ b.length →
      restoreFirst (emitAll a b
        (opsRec ci cj (blocks ++ [(a.length, b.length, 0)]))) = sliceOf a ci a.length ∧
      restoreSecond (emitAll a b
        (opsRec ci cj (blocks ++ [(a.length, b.length, 0)]))) = sliceOf b cj b.length := by
  intro blocks
  induction blocks with
  | nil =>
    intro ci cj _ hci hcj
    rw [List.nil_append, opsRec_cons]
    rw [show (if (0 : Nat) ≠ 0 then
          [(DTag.equal, a.length, a.length + 0, b.length, b.length + 0)] else []) = []
        from by simp, List.append_nil]
    rw [show opsRec (a.length + 0) (b.length + 0) [] = [] from rfl, List.append_nil]
    exact gapEmit_restore a b ci a.length cj b.length hci hcj (le_refl _) (le_refl _)
  | cons blk rest ih =>
    intro ci cj hch hci hcj
    obtain ⟨i, j, k⟩ := blk
    obtain ⟨hh1, hh2, hh3, hh4, hh5, hh6, hh7⟩ := hch
    rw [List.cons_append, opsRec_cons]
    rw [show (if k ≠ 0 then [(DTag.equal, i, i + k, j, j + k)] else []) =
          [(DTag.equal, i, i + k, j, j + k)] from by rw [if_pos (by omega : k ≠ 0)]]
    rw [emitAll_append, emitAll_append, emitAll_single]
    have hgap := gapEmit_restore a b ci i cj j hh1 hh2 (by omega) (by omega)
    have hrest := ih (i + k) (j + k) hh7 (by omega) (by omega)
    have heq1 : restoreFirst (opEmit a b (DTag.equal, i, i + k, j, j + k)) =
        sliceOf a i (i + k) := by
      show restoreFirst (differDump ' ' a i (i + k)) = _
      exact restoreFirst_dump_space a i (i + k) (by omega) (by omega)
    have heq2 : restoreSecond (opEmit a b (DTag.equal, i, i + k, j, j + k)) =
        sliceOf b j (j + k) := by
      show restoreSecond (differDump ' ' a i (i + k)) = _
      rw [restoreSecond_dump_space a i (i + k) (by omega) (by omega)]
      exact sliceOf_congr a b i j k (by omega) (by omega) hh6
    constructor
    · rw [restoreFirst_append, restoreFirst_append, hgap.1, heq1, hrest.1]
      rw [sliceOf_split a ci i a.length (by omega) (by omega),
          sliceOf_split a i (i + k) a.length (by omega) (by omega)]
      simp
    · rw [restoreSecond_append, restoreSecond_append, hgap.2, heq2, hrest.2]
      rw [sliceOf_split b cj j b.length (by omega) (by omega),
          sliceOf_split b j (j + k) b.length (by omega) (by omega)]
      simp

theorem differCompare_restore (a b : List DLine) :
    restoreFirst (differCompare a b) = a ∧ restoreSecond (differCompare a b) = b := by
  rw [differCompare_emitAll]
  unfold get_opcodes
  rw [get_opcodes_opsRec]
  have hch := matchingBlocksRec_chained a b (a.length + b.length + 1)
    0 a.length 0 b.length (by omega) (by omega)
  obtain ⟨M, hM, hMch⟩ := nonAdjacentBlocks_chained a b a.length b.length _ hch
  unfold get_matching_blocks
  rw [hM]
  have := opsRec_restore a b M 0 0 hMch (by omega) (by omega)
  rw [show sliceOf a 0 a.length = a from by unfold sliceOf; simp,
      show sliceOf b 0 b.length = b from by unfold sliceOf; simp] at this
  exact this

theorem tagOk_dump (t : Char) (ht : t = '+' ∨ t = '-' ∨ t = ' ' ∨ t = '?')
    (x : List DLine) (lo hi : Nat) (l : DLine) (hl : l ∈ differDump t x lo hi) :
    TagOk l := by
  unfold differDump at hl
  rw [List.mem_map] at hl
  obtain ⟨i, _, hli⟩ := hl
  subst hli
  rcases ht with h | h | h | h <;> subst h <;> simp [TagOk]

theorem tagOk_plainReplace (a b : List DLine) (alo ahi blo bhi : Nat) (l : DLine)
    (hl : l ∈ plainReplace a b alo ahi blo bhi) : TagOk l := by
  unfold plainReplace at hl
  split at hl <;> rw [List.mem_append] at hl <;>
    rcases hl with hl | hl
  · exact tagOk_dump '+' (by simp) b blo bhi l hl
  · exact tagOk_dump '-' (by simp) a alo ahi l hl
  · exact tagOk_dump '-' (by simp) a alo ahi l hl
  · exact tagOk_dump '+' (by simp) b blo bhi l hl

theorem mem_ite_singleton {c : Prop} [Decidable c] (x l : DLine)
    (h : l ∈ (if c then [x] else [])) : l = x := by
  split at h
  · simpa using h
  · simp at h

theorem tagOk_qformat (al bl ats bts : List Char) (l : DLine)
    (hl : l ∈ qformat al bl ats bts) : TagOk l := by
  unfold qformat at hl
  dsimp only at hl
  rw [List.mem_append, List.mem_append, List.mem_append] at hl
  unfold TagOk
  rcases hl with ((h | h) | h) | h
  · simp only [List.mem_singleton] at h
    subst h; simp
  · have := mem_ite_singleton _ l h
    subst this; simp
  · simp only [List.mem_singleton] at h
    subst h; simp
  · have := mem_ite_singleton _ l h
    subst this; simp

theorem tagOk_synch (a b : List DLine) (bi bj : Nat) (idf : Bool) (l : DLine)
    (hl : l ∈ fancySynchOut a b bi bj idf) : TagOk l := by
  unfold fancySynchOut at hl
  split at hl
  · simp only [List.mem_singleton] at hl
    subst hl
    simp [TagOk]
  · exact tagOk_qformat _ _ _ _ l hl

theorem tagOk_fancyStep (a b : List DLine) :
    ∀ (fuel : Nat) (flag : Bool) (alo ahi blo bhi : Nat) (l : DLine),
      l ∈ fancyStep a b fuel flag alo ahi blo bhi → TagOk l := by
  intro fuel
  induction fuel with
  | zero => intro flag alo ahi blo bhi l hl; simp [fancyStep] at hl
  | succ fuel ih =>
    intro flag alo ahi blo bhi l hl
    cases flag
    · rw [fancyStep_false_eq] at hl
      split at hl
      · split at hl
        · exact ih true alo ahi blo bhi l hl
        · exact tagOk_dump '-' (by simp) a alo ahi l hl
      · split at hl
        · exact tagOk_dump '+' (by simp) b blo bhi l hl
        · simp at hl
    · rw [fancyStep_true_eq] at hl
      split at hl
      · rcases hep : (fancyScan a b alo ahi blo bhi).eqPair with _ | p <;>
          rw [hep] at hl
        · exact tagOk_plainReplace a b alo ahi blo bhi l hl
        · simp only [List.mem_append] at hl
          rcases hl with (hl | hl) | hl
          · exact ih false alo p.1 blo p.2 l hl
          · exact tagOk_synch a b p.1 p.2 true l hl
          · exact ih false (p.1 + 1) ahi (p.2 + 1) bhi l hl
      · rcases hbp : (fancyScan a b alo ahi blo bhi).best with _ | p <;>
          rw [hbp] at hl
        · simp at hl
        · simp only [List.mem_append] at hl
          rcases hl with (hl | hl) | hl
          · exact ih false alo p.1 blo p.2 l hl
          · exact tagOk_synch a b p.1 p.2 false l hl
          · exact ih false (p.1 + 1) ahi (p.2 + 1) bhi l hl

theorem tagOk_opEmit (a b : List DLine) (op : DTag × Nat × Nat × Nat × Nat)
    (l : DLine) (hl : l ∈ opEmit a b op) : TagOk l := by
  obtain ⟨tag, alo, ahi, blo, bhi⟩ := op
  cases tag
  · exact tagOk_fancyStep a b _ true alo ahi blo bhi l hl
  · exact tagOk_dump '-' (by simp) a alo ahi l hl
  · exact tagOk_dump '+' (by simp) b blo bhi l hl
  · exact tagOk_dump ' ' (by simp) a alo ahi l hl

theorem emitAll_mem (a b : List DLine) :
    ∀ (ops : List (DTag × Nat × Nat × Nat × Nat)) (l : DLine),
      l ∈ emitAll a b ops → ∃ op ∈ ops, l ∈ opEmit a b op := by
  intro ops
  induction ops with
  | nil => intro l hl; simp [emitAll] at hl
  | cons op ops ih =>
    intro l hl
    unfold emitAll at hl
    rw [List.foldr_cons, List.mem_append] at hl
    rcases hl with hl | hl
    · exact ⟨op, by simp, hl⟩
    · obtain ⟨op', hop', hl'⟩ := ih l hl
      exact ⟨op', by simp [hop'], hl'⟩

theorem tagOk_differCompare (a b : List DLine) (l : DLine)
    (hl : l ∈ differCompare a b) : TagOk l := by
  rw [differCompare_emitAll] at hl
  obtain ⟨op, _, hlop⟩ := emitAll_mem a b _ l hl
  exact tagOk_opEmit a b op l hlop

theorem spanWrap_shape (l : DLine) :
    ∃ so : List Char, spanWrap l = so ++ (l ++ "</span>".data) := by
  unfold spanWrap
  split
  · exact ⟨_, by rw [List.append_assoc]⟩
  · split
    · exact ⟨_, by rw [List.append_assoc]⟩
    · exact ⟨_, by rw [List.append_assoc]⟩


theorem extractGenContent_wrap (s : List Char) :
    extractGenContent (genWrap s) = .ok (some (.str s)) := rfl

theorem review_success_parse (s : List Char) (j : Json) (h : jsonLoads s = some j) :
    get_resume_review_and_score (.success (genWrap s)) = (some j, []) := by
  have h1 : get_resume_review_and_score (.success (genWrap s)) =
      (match jsonLoads s with
       | some j => (some j, [])
       | none =>
         (none,
          [.error "Failed to parse JSON response from Gemini API. Check API response format.".data,
           .write ("Raw non-JSON response received: ".data ++ s)])) := rfl
  rw [h1, h]

theorem text_success (s : List Char) :
    call_gemini_api (.success (genWrap s)) false = (some (.str s), []) := rfl

theorem extract_keywords_success (s : List Char) :
    extract_keywords (.success (genWrap s)) = (s, []) := rfl

theorem runSubmission_c1 (prior : SessionState) (rv : ApiOutcome) :
    runSubmission prior ⟨some (.ok "R".data), "T".data, "D".data, .standard⟩
      ⟨.success (genWrap "python".data), .success (genWrap "TR".data), rv⟩ =
      ⟨⟨some (.str "TR".data), (get_resume_review_and_score rv).1, some "R".data,
        some ("Extracted Keywords: ".data ++ "python".data)⟩,
       (get_resume_review_and_score rv).2,
       [(.keywords, keywordPrompt "D".data),
        (.tailor, tailorPrompt (tailoringGuidance .standard)
          (keywordsInstructionOf "python".data) "R".data "T".data "D".data),
        (.review, reviewPrompt "TR".data "T".data "D".data)]⟩ := rfl

theorem reviewGate_miss (j : Json)
    (hmiss : pyTruthy j = false ∨
      pyContains j "ats_score".data = .ok false ∨
      (pyContains j "ats_score".data = .ok true ∧
       pyContains j "review".data = .ok false)) :
    reviewGate (some j) = .ok false := by
  unfold reviewGate
  dsimp only
  rcases hmiss with h | h | ⟨h1, h2⟩
  · rw [if_neg (by simp [h])]
  · by_cases ht : pyTruthy j
    · rw [if_pos ht]
      rw [show (do
          let h1 ← pyContains j "ats_score".data
          if h1 then pyContains j "review".data
          else return false : Except Unit Bool) =
        (pyContains j "ats_score".data >>= fun h1 =>
          if h1 then pyContains j "review".data else pure false) from rfl]
      rw [h]
      rfl
    · rw [if_neg ht]
  · by_cases ht : pyTruthy j
    · rw [if_pos ht]
      rw [show (do
          let h1 ← pyContains j "ats_score".data
          if h1 then pyContains j "review".data
          else return false : Except Unit Bool) =
        (pyContains j "ats_score".data >>= fun h1 =>
          if h1 then pyContains j "review".data else pure false) from rfl]
      rw [h1]
      show pyContains j "review".data = Except.ok false
      exact h2
    · rw [if_neg ht]

set_option maxRecDepth 8000 in
theorem renderResults_c1 (j : Json) (hgate : reviewGate (some j) = .ok false) :
    (renderResults ⟨some (.str "TR".data), some j, some "R".data,
      some ("Extracted Keywords: ".data ++ "python".data)⟩).map
        RenderOut.reviewShown = .ok none := by
  unfold renderResults
  dsimp only
  rw [hgate]
  rfl

/-! ## Claim theorems -/

/-- C3: for every plain-text input `A`, diffing `A` against itself through
the app's pipeline (clean, split keeping line ends, `Differ.compare`) yields
a sequence in which every element is the corresponding line tagged
unchanged (`'  '`), and the concatenation of the tagged lines' texts is
exactly the joined sequence of `A`'s non-blank trimmed lines. -/
theorem C3_self_diff_all_unchanged (A : List Char) :
    appDiff A A =
      (pySplitlines true (cleanedText A)).map (fun l => ' ' :: ' ' :: l) ∧
    ((appDiff A A).map (fun l => l.drop 2)).flatten = cleanedText A := by
  have h1 : appDiff A A =
      differCompare (pySplitlines true (cleanedText A))
        (pySplitlines true (cleanedText A)) := rfl
  refine ⟨by rw [h1, differCompare_self], ?_⟩
  rw [h1, differCompare_self]
  rw [List.map_map]
  have : ((fun l => l.drop 2) ∘ fun l => ' ' :: ' ' :: l) = (fun l : DLine => l) := by
    funext l
    simp
  rw [this]
  rw [show List.map (fun l : DLine => l) (pySplitlines true (cleanedText A)) =
    pySplitlines true (cleanedText A) from List.map_id _]
  exact flatten_pySplitlines _

/-- C5: diffing the empty text against any text `B` yields a sequence in
which every element is tagged inserted (`'+ '`), the inserted lines being
exactly the keepends-split of `B`'s non-blank trimmed lines in order (their
concatenation is the joined cleaned text of `B`). -/
theorem C5_empty_vs_nonempty (B : List Char) :
    appDiff [] B =
      (pySplitlines true (cleanedText B)).map (fun l => '+' :: ' ' :: l) ∧
    ((appDiff [] B).map (fun l => l.drop 2)).flatten = cleanedText B := by
  have h1 : appDiff [] B =
      differCompare [] (pySplitlines true (cleanedText B)) := rfl
  refine ⟨by rw [h1, differCompare_nil_left], ?_⟩
  rw [h1, differCompare_nil_left]
  rw [List.map_map]
  have : ((fun l => l.drop 2) ∘ fun l : DLine => '+' :: ' ' :: l) =
      (fun l : DLine => l) := by
    funext l
    simp
  rw [this]
  rw [show List.map (fun l : DLine => l) (pySplitlines true (cleanedText B)) =
    pySplitlines true (cleanedText B) from List.map_id _]
  exact flatten_pySplitlines _

set_option maxRecDepth 8000 in
/-- C2 (counterexample): on the spec's own example the diff does NOT consist
of three lines each tagged unchanged/inserted/deleted: `Differ.compare`
additionally emits an intraline guide line beginning `'? '` (the two
replaced lines have similarity ratio 58/75 > 0.74, so `_fancy_replace`
synchs on them and emits the guide), so the output has four elements. -/
theorem C2_counterexample :
    ¬ (((appDiff "Engineer with Python skills.\n\nWorked at Acme.".data
          "Senior Engineer with Python and cloud skills.\nWorked at Acme.".data).all
          (fun l => decide (l.take 2 = [' ', ' ']) || decide (l.take 2 = ['+', ' ']) ||
            decide (l.take 2 = ['-', ' '])) = true) ∧
        (appDiff "Engineer with Python skills.\n\nWorked at Acme.".data
          "Senior Engineer with Python and cloud skills.\nWorked at Acme.".data).length = 3) := by
  decide

set_option maxRecDepth 8000 in
/-- C2 (amended): on the spec's example the pipeline drops the blank line
from both inputs and reports exactly one deletion, one insertion, one
intraline guide line (tagged `'? '`, emitted after the insertion), and one
unchanged line, in this order. -/
theorem C2_amended :
    appDiff "Engineer with Python skills.\n\nWorked at Acme.".data
        "Senior Engineer with Python and cloud skills.\nWorked at Acme.".data =
      ["- Engineer with Python skills.\n".data,
       "+ Senior Engineer with Python and cloud skills.\n".data,
       "? +++++++                     ++++++++++\n".data,
       "  Worked at Acme.".data] := by
  decide

set_option maxRecDepth 8000 in
/-- C4 (counterexample): for `A = "X\nY\nZ"` and `B = "Y\nX\nZ"`, diffing
`B` against `A` is not the tag-swapped image of diffing `A` against `B`,
and the two runs do not even agree on which lines are tagged unchanged
(the first run keeps `X` and `Z`, the second keeps `Y` and `Z`). -/
theorem C4_counterexample :
    ¬ (appDiff "Y\nX\nZ".data "X\nY\nZ".data =
        (appDiff "X\nY\nZ".data "Y\nX\nZ".data).map swapTags) ∧
    ¬ (unchangedOf (appDiff "X\nY\nZ".data "Y\nX\nZ".data) =
        unchangedOf (appDiff "Y\nX\nZ".data "X\nY\nZ".data)) := by
  decide

/-- C4 (corrected: see `C4_counterexample`).  The corrected cross-direction
relationship between `diff(A, B)` and `diff(B, A)`: each delta embeds both
input sequences exactly — the lines tagged `'- '` or `'  '` concatenate to
the first input's kept lines and the lines tagged `'+ '` or `'  '` to the
second's (this is what `difflib.restore` reads), so the two directions carry
the same two line sequences with the roles of `'- '` and `'+ '` exchanged.
The spec's stronger line-for-line tag-swap claim is refuted by
`C4_counterexample`. -/
theorem C4_amended (A B : List Char) :
    restoreFirst (appDiff A B) = pySplitlines true (cleanedText A) ∧
    restoreSecond (appDiff A B) = pySplitlines true (cleanedText B) ∧
    restoreSecond (appDiff B A) = pySplitlines true (cleanedText A) ∧
    restoreFirst (appDiff B A) = pySplitlines true (cleanedText B) := by
  unfold appDiff
  exact ⟨(differCompare_restore _ _).1, (differCompare_restore _ _).2,
         (differCompare_restore _ _).2, (differCompare_restore _ _).1⟩

/-- C9: every line of the diff underlying `generate_diff_html` carries one
of the four two-character difflib tag prefixes, and the HTML output embeds
that raw line verbatim — tag prefix included, with no escaping — inside its
colored span. -/
theorem C9_verbatim_embedding (text1 text2 : List Char) (l : DLine)
    (hl : l ∈ differCompare (pySplitlines true text1) (pySplitlines true text2)) :
    (l.take 2 = ['+', ' '] ∨ l.take 2 = ['-', ' '] ∨
     l.take 2 = [' ', ' '] ∨ l.take 2 = ['?', ' ']) ∧
    ∃ pre suf : List Char,
      generate_diff_html text1 text2 = pre ++ l ++ "</span>".data ++ suf := by
  constructor
  · exact tagOk_differCompare _ _ l hl
  · obtain ⟨s, t, hst⟩ := List.append_of_mem hl
    obtain ⟨so, hso⟩ := spanWrap_shape l
    refine ⟨htmlDivOpen ++ ((s.map spanWrap).flatten ++ so),
            (t.map spanWrap).flatten ++ "</div>".data, ?_⟩
    unfold generate_diff_html
    dsimp only
    rw [hst]
    rw [List.map_append, List.map_cons, List.flatten_append, List.flatten_cons, hso]
    simp [List.append_assoc]

set_option maxRecDepth 8000 in
/-- Witness for `C9_verbatim_embedding` at a concrete input: the `'- '`
line of the diff of `"a\n"` against `"b\n"` appears verbatim in the HTML. -/
theorem C9_witness :
    ('-' :: ' ' :: 'a' :: '\n' :: []) ∈
      differCompare (pySplitlines true "a\n".data) (pySplitlines true "b\n".data) ∧
    ((('-' :: ' ' :: 'a' :: '\n' :: [] : DLine).take 2 = ['+', ' '] ∨
      ('-' :: ' ' :: 'a' :: '\n' :: [] : DLine).take 2 = ['-', ' '] ∨
      ('-' :: ' ' :: 'a' :: '\n' :: [] : DLine).take 2 = [' ', ' '] ∨
      ('-' :: ' ' :: 'a' :: '\n' :: [] : DLine).take 2 = ['?', ' ']) ∧
     ∃ pre suf : List Char,
       generate_diff_html "a\n".data "b\n".data =
         pre ++ ('-' :: ' ' :: 'a' :: '\n' :: []) ++ "</span>".data ++ suf) :=
  ⟨by decide, C9_verbatim_embedding "a\n".data "b\n".data _ (by decide)⟩

/-- C1 (corrected: see `C1_counterexample`).  When the review call returns a
JSON body that parses but lacks a required schema field, the parsed value is
stored verbatim in `review_data` (not treated as absent), no
could-not-generate notice is shown, and only the display gate of line 420
keeps the partial result off the screen. -/
theorem C1_amended (s : List Char) (j : Json)
    (hparse : jsonLoads s = some j)
    (hmiss : pyTruthy j = false ∨
      pyContains j "ats_score".data = .ok false ∨
      (pyContains j "ats_score".data = .ok true ∧
       pyContains j "review".data = .ok false))
    (prior : SessionState) :
    (runSubmission prior ⟨some (.ok "R".data), "T".data, "D".data, .standard⟩
      ⟨.success (genWrap "python".data), .success (genWrap "TR".data),
       .success (genWrap s)⟩).state.review_data = some j ∧
    (runSubmission prior ⟨some (.ok "R".data), "T".data, "D".data, .standard⟩
      ⟨.success (genWrap "python".data), .success (genWrap "TR".data),
       .success (genWrap s)⟩).msgs = [] ∧
    (renderResults (runSubmission prior ⟨some (.ok "R".data), "T".data, "D".data, .standard⟩
      ⟨.success (genWrap "python".data), .success (genWrap "TR".data),
       .success (genWrap s)⟩).state).map RenderOut.reviewShown = .ok none := by
  rw [runSubmission_c1 prior (.success (genWrap s)),
      review_success_parse s j hparse]
  refine ⟨rfl, rfl, ?_⟩
  exact renderResults_c1 j (reviewGate_miss j hmiss)

set_option maxRecDepth 8000 in
/-- C1 counterexample: a review response of `\x7b"ats_score": 87\x7d`
(missing `review`) is stored as a partially-populated dict in session state
with no user-facing notice, refuting the spec's claim that such a result is
never stored and that a could-not-generate notice is displayed; the partial
dict merely fails the display gate. -/
theorem C1_counterexample :
    jsonLoads "\x7b\"ats_score\": 87\x7d".data =
      some (.obj [("ats_score".data, .num 87)]) ∧
    pyContains (.obj [("ats_score".data, .num 87)]) "review".data = .ok false ∧
    (runSubmission ⟨none, none, none, none⟩
      ⟨some (.ok "R".data), "T".data, "D".data, .standard⟩
      ⟨.success (genWrap "python".data), .success (genWrap "TR".data),
       .success (genWrap "\x7b\"ats_score\": 87\x7d".data)⟩).state.review_data =
      some (.obj [("ats_score".data, .num 87)]) ∧
    (runSubmission ⟨none, none, none, none⟩
      ⟨some (.ok "R".data), "T".data, "D".data, .standard⟩
      ⟨.success (genWrap "python".data), .success (genWrap "TR".data),
       .success (genWrap "\x7b\"ats_score\": 87\x7d".data)⟩).msgs = [] ∧
    (renderResults (runSubmission ⟨none, none, none, none⟩
      ⟨some (.ok "R".data), "T".data, "D".data, .standard⟩
      ⟨.success (genWrap "python".data), .success (genWrap "TR".data),
       .success (genWrap "\x7b\"ats_score\": 87\x7d".data)⟩).state).map
        RenderOut.reviewShown = .ok none := by
  have hp : jsonLoads "\x7b\"ats_score\": 87\x7d".data =
      some (.obj [("ats_score".data, .num 87)]) := rfl
  refine ⟨rfl, rfl, ?_, ?_, ?_⟩
  · rw [runSubmission_c1, review_success_parse _ _ hp]
  · rw [runSubmission_c1, review_success_parse _ _ hp]
  · rw [runSubmission_c1, review_success_parse _ _ hp]
    exact renderResults_c1 _ (reviewGate_miss _ (Or.inr (Or.inr ⟨rfl, rfl⟩)))

set_option maxRecDepth 2000 in
/-- Witness for `C1_amended` at a concrete partial response and a populated
prior session state. -/
theorem C1_witness :
    (runSubmission ⟨some (.str "old".data), some (.num 1), some "o".data, some "k".data⟩
      ⟨some (.ok "R".data), "T".data, "D".data, .standard⟩
      ⟨.success (genWrap "python".data), .success (genWrap "TR".data),
       .success (genWrap "\x7b\"ats_score\": 87\x7d".data)⟩).state.review_data =
      some (.obj [("ats_score".data, .num 87)]) ∧
    (runSubmission ⟨some (.str "old".data), some (.num 1), some "o".data, some "k".data⟩
      ⟨some (.ok "R".data), "T".data, "D".data, .standard⟩
      ⟨.success (genWrap "python".data), .success (genWrap "TR".data),
       .success (genWrap "\x7b\"ats_score\": 87\x7d".data)⟩).msgs = [] ∧
    (renderResults (runSubmission ⟨some (.str "old".data), some (.num 1), some "o".data, some "k".data⟩
      ⟨some (.ok "R".data), "T".data, "D".data, .standard⟩
      ⟨.success (genWrap "python".data), .success (genWrap "TR".data),
       .success (genWrap "\x7b\"ats_score\": 87\x7d".data)⟩).state).map
        RenderOut.reviewShown = .ok none :=
  C1_amended "\x7b\"ats_score\": 87\x7d".data (.obj [("ats_score".data, .num 87)])
    rfl (Or.inr (Or.inr ⟨rfl, rfl⟩))
    ⟨some (.str "old".data), some (.num 1), some "o".data, some "k".data⟩

/-- C6: every transport failure, shape failure, and (schema-requested) JSON
parse failure of a remote call yields an absent (`None`) result, and a
submission issues each remote call at most once — the call lists are always
a prefix of keywords/tailor/review, with no repeats. -/
theorem C6_one_shot_absent (hasSchema : Bool) (oc : ApiOutcome)
    (herr : match oc with
      | .success body =>
          extractGenContent body = .ok none ∨
          extractGenContent body = .error () ∨
          (hasSchema = true ∧
           ∃ s, extractGenContent body = .ok (some (.str s)) ∧ jsonLoads s = none)
      | _ => True) :
    (call_gemini_api oc hasSchema).1 = none ∧
    ∀ (prior : SessionState) (sub : Submission) (rc : RemoteOutcomes),
      ((runSubmission prior sub rc).calls.map Prod.fst) ∈
        ([[], [CallKind.keywords, CallKind.tailor],
          [CallKind.keywords, CallKind.tailor, CallKind.review]] :
          List (List CallKind)) := by
  constructor
  · match oc with
    | .httpError st tx => rfl
    | .connectionError m => rfl
    | .timeoutError m => rfl
    | .requestError m => rfl
    | .unexpectedError m => rfl
    | .success body =>
      unfold call_gemini_api
      dsimp only
      rcases herr with h | h | ⟨hs, s, hex, hjl⟩
      · rw [h]
      · rw [h]
      · rw [hex, hs]
        dsimp only
        rw [hjl]
        rfl
  · intro prior sub rc
    unfold runSubmission
    match sub.uploadedFile with
    | none => simp
    | some file =>
      dsimp only
      split
      · simp
      · match file with
        | .error _ => simp
        | .ok resume =>
          dsimp only
          split
          · simp
          · simp

/-- C7: when the tailoring call produces a falsy result, the review step is
skipped (its result absent), the review call is never issued, the failure
notice is shown, and the renderer displays neither diff nor review. -/
theorem C7_review_skipped (prior : SessionState) (sub : Submission) (oc : RemoteOutcomes)
    (resume : List Char) (hfile : sub.uploadedFile = some (.ok resume))
    (hjt : sub.jobTitle ≠ []) (hjd : sub.jobDescription ≠ [])
    (hfail : pyTruthyOpt (call_gemini_api oc.tailorCall false).1 = false) :
    (runSubmission prior sub oc).state.tailored_resume = none ∧
    (runSubmission prior sub oc).state.review_data = none ∧
    ((runSubmission prior sub oc).calls.map Prod.fst) =
      [CallKind.keywords, CallKind.tailor] ∧
    Msg.error tailorFailMsg ∈ (runSubmission prior sub oc).msgs ∧
    renderResults (runSubmission prior sub oc).state = .ok ⟨none, none, none, none⟩ := by
  unfold runSubmission
  rw [hfile]
  dsimp only
  rw [if_neg (by rw [not_or]; exact ⟨hjt, hjd⟩)]
  rw [if_neg (by rw [hfail]; simp)]
  refine ⟨rfl, rfl, rfl, ?_, rfl⟩
  simp

/-- C8: when keyword extraction produces the empty string, the user is
informed via the stored could-not-extract display text, and tailoring still
proceeds with an empty keyword-highlighting slot in its prompt. -/
theorem C8_empty_keywords_nonfatal (prior : SessionState) (sub : Submission) (oc : RemoteOutcomes)
    (resume : List Char) (hfile : sub.uploadedFile = some (.ok resume))
    (hjt : sub.jobTitle ≠ []) (hjd : sub.jobDescription ≠ [])
    (hkw : (extract_keywords oc.keywordCall).1 = []) :
    (runSubmission prior sub oc).state.extracted_keywords_display =
      some kwFailDisplay ∧
    ∃ rest, (runSubmission prior sub oc).calls =
      (CallKind.keywords, keywordPrompt sub.jobDescription) ::
      (CallKind.tailor, tailorPrompt (tailoringGuidance sub.style) [] resume
        sub.jobTitle sub.jobDescription) :: rest := by
  unfold runSubmission
  rw [hfile]
  dsimp only
  rw [if_neg (by rw [not_or]; exact ⟨hjt, hjd⟩)]
  rw [hkw]
  rw [if_pos rfl, if_pos rfl]
  by_cases ht : pyTruthyOpt (call_gemini_api oc.tailorCall false).1
  · rw [if_pos ht]
    exact ⟨rfl, _, rfl⟩
  · rw [if_neg ht]
    exact ⟨rfl, _, rfl⟩

/-- C10: a submission rejected for missing inputs still leaves all four
session-state slots reset to `None` (regardless of the prior state), shows
the missing-input warning, and issues no remote call. -/
theorem C10_reset_before_validation (prior : SessionState) (sub : Submission) (oc : RemoteOutcomes)
    (hinvalid : sub.uploadedFile = none ∨ sub.jobTitle = [] ∨ sub.jobDescription = []) :
    runSubmission prior sub oc =
      ⟨⟨none, none, none, none⟩, [.warning missingInputMsg], []⟩ := by
  unfold runSubmission
  rcases hinvalid with h | h
  · rw [h]
  · match hf : sub.uploadedFile with
    | none => rfl
    | some file =>
      dsimp only
      rw [if_pos h]

/-- Witness for `C6_one_shot_absent` at a timeout outcome. -/
theorem C6_witness :
    (call_gemini_api (.timeoutError "t".data) true).1 = none ∧
    ((runSubmission ⟨none, none, none, none⟩
        ⟨some (.ok "R".data), "T".data, "D".data, .standard⟩
        ⟨.success (genWrap "k".data), .success (genWrap "TR".data),
         .success (genWrap "r".data)⟩).calls.map Prod.fst) ∈
      ([[], [CallKind.keywords, CallKind.tailor],
        [CallKind.keywords, CallKind.tailor, CallKind.review]] :
        List (List CallKind)) :=
  ⟨(C6_one_shot_absent true (.timeoutError "t".data) trivial).1,
   (C6_one_shot_absent true (.timeoutError "t".data) trivial).2 ⟨none, none, none, none⟩
     ⟨some (.ok "R".data), "T".data, "D".data, .standard⟩
     ⟨.success (genWrap "k".data), .success (genWrap "TR".data),
      .success (genWrap "r".data)⟩⟩

/-- Witness for `C7_review_skipped` with a timed-out tailoring call. -/
theorem C7_witness :
    (runSubmission ⟨none, none, none, none⟩
      ⟨some (.ok "R".data), "T".data, "D".data, .standard⟩
      ⟨.success (genWrap "k".data), .timeoutError "x".data,
       .success (genWrap "r".data)⟩).state.tailored_resume = none ∧
    (runSubmission ⟨none, none, none, none⟩
      ⟨some (.ok "R".data), "T".data, "D".data, .standard⟩
      ⟨.success (genWrap "k".data), .timeoutError "x".data,
       .success (genWrap "r".data)⟩).state.review_data = none ∧
    ((runSubmission ⟨none, none, none, none⟩
      ⟨some (.ok "R".data), "T".data, "D".data, .standard⟩
      ⟨.success (genWrap "k".data), .timeoutError "x".data,
       .success (genWrap "r".data)⟩).calls.map Prod.fst) =
      [CallKind.keywords, CallKind.tailor] ∧
    Msg.error tailorFailMsg ∈ (runSubmission ⟨none, none, none, none⟩
      ⟨some (.ok "R".data), "T".data, "D".data, .standard⟩
      ⟨.success (genWrap "k".data), .timeoutError "x".data,
       .success (genWrap "r".data)⟩).msgs ∧
    renderResults (runSubmission ⟨none, none, none, none⟩
      ⟨some (.ok "R".data), "T".data, "D".data, .standard⟩
      ⟨.success (genWrap "k".data), .timeoutError "x".data,
       .success (genWrap "r".data)⟩).state = .ok ⟨none, none, none, none⟩ :=
  C7_review_skipped ⟨none, none, none, none⟩
    ⟨some (.ok "R".data), "T".data, "D".data, .standard⟩
    ⟨.success (genWrap "k".data), .timeoutError "x".data,
     .success (genWrap "r".data)⟩ "R".data rfl
    (by simp) (by simp) rfl

/-- Witness for `C8_empty_keywords_nonfatal` with a timed-out keyword call. -/
theorem C8_witness :
    (runSubmission ⟨none, none, none, none⟩
      ⟨some (.ok "R".data), "T".data, "D".data, .standard⟩
      ⟨.timeoutError "x".data, .success (genWrap "TR".data),
       .success (genWrap "r".data)⟩).state.extracted_keywords_display =
      some kwFailDisplay ∧
    ∃ rest, (runSubmission ⟨none, none, none, none⟩
      ⟨some (.ok "R".data), "T".data, "D".data, .standard⟩
      ⟨.timeoutError "x".data, .success (genWrap "TR".data),
       .success (genWrap "r".data)⟩).calls =
      (CallKind.keywords, keywordPrompt "D".data) ::
      (CallKind.tailor, tailorPrompt (tailoringGuidance .standard) [] "R".data
        "T".data "D".data) :: rest :=
  C8_empty_keywords_nonfatal ⟨none, none, none, none⟩
    ⟨some (.ok "R".data), "T".data, "D".data, .standard⟩
    ⟨.timeoutError "x".data, .success (genWrap "TR".data),
     .success (genWrap "r".data)⟩ "R".data rfl
    (by simp) (by simp) rfl

/-- Witness for `C10_reset_before_validation`: a populated prior state is
wiped by a submission with no file selected. -/
theorem C10_witness :
    runSubmission
      ⟨some (.str "old".data), some (.num 1), some "o".data, some "k".data⟩
      ⟨none, "T".data, "D".data, .standard⟩
      ⟨.success (genWrap "k".data), .success (genWrap "TR".data),
       .success (genWrap "r".data)⟩ =
      ⟨⟨none, none, none, none⟩, [.warning missingInputMsg], []⟩ :=
  C10_reset_before_validation ⟨some (.str "old".data), some (.num 1), some "o".data, some "k".data⟩
    ⟨none, "T".data, "D".data, .standard⟩
    ⟨.success (genWrap "k".data), .success (genWrap "TR".data),
     .success (genWrap "r".data)⟩ (Or.inl rfl)
